import Mathlib

/-!
Verification of the HierarchicalPcb KiCad plugin core.

This file gives a shallow embedding, in Lean 4, of the data model and the
operations of the HierarchicalPcb plugin (files `hdata.py`, `placement.py`,
`cfgman.py` and `interface/DlgHPCBRun.py` of the repository), and settles a
list of claims about them.

Modelling conventions, used throughout:

* KiCad board coordinates (`pcbnew.VECTOR2I`) are pairs of integers.
* Python floating point numbers are modelled as real numbers; `math.sin`,
  `math.cos`, `math.radians` become `Real.sin`, `Real.cos` and
  multiplication by `pi / 180`; the Python `int()` conversion is
  truncation toward zero (`pyInt` below).
* A `pcbnew.FOOTPRINT` is modelled by the `Footprint` structure, carrying
  exactly the state the plugin reads or writes: hierarchical path string,
  reference label, position, orientation (in degrees; `GetOrientation` and
  `GetOrientationDegrees` are consistently modelled by the same field),
  flipped flag, area, the local-clearance properties copied by
  `PositionTransform.footprint`, the reference and value text fields, the
  list of graphical text items, and the containing group.
  `FOOTPRINT.Flip(own position, False)` is modelled as toggling the
  flipped flag: the plugin itself only ever reads `IsFlipped` and
  afterwards overwrites position and orientation explicitly.
* Mutation of a Python object is modelled by functional update; the board
  object threads through every operation.  Objects held by reference and
  mutated in place (the anchor footprint held by `PositionTransform`) are
  represented by their index into the board footprint list, and every read
  of such an object goes through the current board state, preserving the
  source code read/write order.
-/

set_option autoImplicit false

namespace HierPcb

/-! ## Geometry: integer vectors and Python numeric conversions -/

/-- `pcbnew.VECTOR2I`: an integer board coordinate. -/
@[ext]
structure VECTOR2I where
  x : ℤ
  y : ℤ
deriving DecidableEq, Repr

/-- Python `int()` applied to a float: truncation toward zero. -/
noncomputable def pyInt (r : ℝ) : ℤ :=
  if 0 ≤ r then ⌊r⌋ else ⌈r⌉

@[simp]
theorem pyInt_intCast (n : ℤ) : pyInt (n : ℝ) = n := by
  unfold pyInt
  split <;> simp

/-- `math.radians`: degrees to radians. -/
noncomputable def radians (deg : ℝ) : ℝ :=
  deg * (Real.pi / 180)

@[simp]
theorem radians_zero : radians 0 = 0 := by
  simp [radians]

/-! ## Data model: footprints and board entities -/

/-- The local properties copied verbatim by `PositionTransform.footprint`
(the list is from the ReplicateLayout plugin). -/
structure FPProps where
  localClearance : ℤ
  localSolderMaskMargin : ℤ
  localSolderPasteMargin : ℤ
  localSolderPasteMarginRatio : ℚ
  zoneConnection : ℤ
deriving DecidableEq, Repr

/-- A `pcbnew.PCB_FIELD` text item of a footprint: the style attributes
copied by `PositionTransform.footprint_text`, plus text content (which the
plugin never copies), position and text angle. -/
structure PCBField where
  text : String
  layer : ℤ
  textThickness : ℤ
  textWidth : ℤ
  textHeight : ℤ
  italic : Bool
  bold : Bool
  multilineAllowed : Bool
  horizJustify : ℤ
  vertJustify : ℤ
  keepUpright : Bool
  visible : Bool
  mirrored : Bool
  pos : VECTOR2I
  angle : ℝ

/-- A `pcbnew.FOOTPRINT`, restricted to the state the plugin touches. -/
structure Footprint where
  path : String
  reference : String
  pos : VECTOR2I
  orientation : ℝ
  flipped : Bool
  area : ℚ
  props : FPProps
  refField : PCBField
  valueField : PCBField
  graphicalItems : List PCBField
  group : Option String

/-- A `pcbnew.PCB_TRACK` (or `PCB_VIA`): endpoints, net (by name, with the
unconnected net modelled as the empty name), free flag, an opaque copied
payload (width, layer), and the containing group. -/
structure Track where
  isVia : Bool
  start : VECTOR2I
  stop : VECTOR2I
  netname : String
  isFree : Bool
  width : ℤ
  group : Option String
deriving DecidableEq, Repr

/-- A board drawing (`pcbnew.PCB_SHAPE` or `pcbnew.PCB_TEXT`): position, an
accumulated rotation angle (`Rotate` about the own position adds to it), an
opaque payload, and the containing group. -/
structure Drawing where
  isText : Bool
  pos : VECTOR2I
  angle : ℝ
  payload : String
  group : Option String

/-- A `pcbnew.ZONE`: reference position, accumulated rotation angle, opaque
payload, and the containing group. -/
structure Zone where
  pos : VECTOR2I
  angle : ℝ
  payload : String
  group : Option String

/-! ## The geometric transform (`placement.py`, `PositionTransform`) -/

/-- The real-valued x coordinate computed inside
`PositionTransform.translate`, before the `int()` conversion.
`t` is the anchor footprint on the template; `mpos` and `mor` are the
position and orientation of the anchor footprint on the mutated (target)
board - the only two attributes of it that `translate` reads. -/
noncomputable def translateXC (t : Footprint) (mpos : VECTOR2I) (mor : ℝ)
    (p : VECTOR2I) : ℝ :=
  let deltaX : ℤ := p.x - t.pos.x
  let deltaY : ℤ := p.y - t.pos.y
  let rotation := radians (mor - t.orientation)
  (deltaY : ℝ) * Real.sin rotation + (deltaX : ℝ) * Real.cos rotation + (mpos.x : ℝ)

/-- The real-valued y coordinate computed inside
`PositionTransform.translate`, before the `int()` conversion. -/
noncomputable def translateYC (t : Footprint) (mpos : VECTOR2I) (mor : ℝ)
    (p : VECTOR2I) : ℝ :=
  let deltaX : ℤ := p.x - t.pos.x
  let deltaY : ℤ := p.y - t.pos.y
  let rotation := radians (mor - t.orientation)
  (deltaY : ℝ) * Real.cos rotation - (deltaX : ℝ) * Real.sin rotation + (mpos.y : ℝ)

/-- `PositionTransform.translate` as a function of the template anchor
and the read attributes of the target anchor. -/
noncomputable def translateAtC (t : Footprint) (mpos : VECTOR2I) (mor : ℝ)
    (p : VECTOR2I) : VECTOR2I :=
  ⟨pyInt (translateXC t mpos mor p), pyInt (translateYC t mpos mor p)⟩

/-- `PositionTransform.orient` as a function of the template anchor and
the orientation of the target anchor. -/
noncomputable def orientAtC (t : Footprint) (mor : ℝ) (rotTemplate : ℝ) : ℝ :=
  rotTemplate - t.orientation + mor

/-- Wrapper used for C5 and C6: x coordinate with the target anchor given
as a footprint. -/
noncomputable def translateX (t m : Footprint) (p : VECTOR2I) : ℝ :=
  translateXC t m.pos m.orientation p

/-- Wrapper: y coordinate with the target anchor given as a footprint. -/
noncomputable def translateY (t m : Footprint) (p : VECTOR2I) : ℝ :=
  translateYC t m.pos m.orientation p

/-- `PositionTransform.translate`, as a function of the current states of
the two anchor footprints: maps a template-space point to a target-space
point, converting the float result with Python `int()`. -/
noncomputable def translateAt (t m : Footprint) (p : VECTOR2I) : VECTOR2I :=
  ⟨pyInt (translateX t m p), pyInt (translateY t m p)⟩

/-- `PositionTransform.orient`, as a function of the current states of the
two anchor footprints. -/
noncomputable def orientAt (t m : Footprint) (rotTemplate : ℝ) : ℝ :=
  orientAtC t m.orientation rotTemplate

/-! ### Claim C5: the identity anchor pair gives the identity transform -/

/-- C5: for every point `p`, when the anchor pair is the identity pair
(the template anchor and the target anchor are the same footprint, hence
have the same position and orientation), `translate p = p`: the computed
transform is the identity on integer board coordinates. -/
theorem translate_identity_pair (a : Footprint) (p : VECTOR2I) :
    translateAt a a p = p := by
  have hx : translateX a a p = ((p.x : ℤ) : ℝ) := by
    unfold translateX translateXC
    simp [sub_self, radians_zero]
  have hy : translateY a a p = ((p.y : ℤ) : ℝ) := by
    unfold translateY translateYC
    simp [sub_self, radians_zero]
  unfold translateAt
  rw [hx, hy]
  ext <;> simp

/-! ### Claim C6: the final float-to-integer conversion

The claim says the conversion rounds half away from zero (2.5 to 3,
-2.5 to -3).  The source uses Python `int()`, which truncates toward
zero, so a computed coordinate of 2.5 yields 2 and -2.5 yields -2. -/

/-- A concrete anchor pair realizing a 60 degree rotation: both anchors at
the origin, template orientation 0 degrees, target orientation 60
degrees. -/
noncomputable def fpBase : Footprint where
  path := ""
  reference := ""
  pos := ⟨0, 0⟩
  orientation := 0
  flipped := false
  area := 0
  props := ⟨0, 0, 0, 0, 0⟩
  refField :=
    ⟨"", 0, 0, 0, 0, false, false, false, 0, 0, false, true, false, ⟨0, 0⟩, 0⟩
  valueField :=
    ⟨"", 0, 0, 0, 0, false, false, false, 0, 0, false, true, false, ⟨0, 0⟩, 0⟩
  graphicalItems := []
  group := none

/-- Target-side anchor of the 60 degree example. -/
noncomputable def fpRot60 : Footprint :=
  { fpBase with orientation := 60 }

theorem radians_sixty : radians (60 - 0) = Real.pi / 3 := by
  unfold radians
  ring

/-- C6 counterexample: with the 60 degree anchor pair and template point
(5, 0), the real-valued x coordinate computed inside `translate` is
exactly 2.5, and the converted integer coordinate is 2, not 3; with
template point (-5, 0) the computed x coordinate is -2.5 and the result
is -2, not -3.  The conversion is truncation toward zero, not
round-half-away-from-zero. -/
theorem translate_truncates_half_toward_zero :
    translateX fpBase fpRot60 ⟨5, 0⟩ = 5 / 2 ∧
    (translateAt fpBase fpRot60 ⟨5, 0⟩).x = 2 ∧
    translateX fpBase fpRot60 ⟨-5, 0⟩ = -(5 / 2) ∧
    (translateAt fpBase fpRot60 ⟨-5, 0⟩).x = -2 := by
  have h60 : fpRot60.orientation - fpBase.orientation = (60 : ℝ) - 0 := by
    simp [fpRot60, fpBase]
  have hxp : translateX fpBase fpRot60 ⟨5, 0⟩ = 5 / 2 := by
    unfold translateX translateXC
    rw [h60, radians_sixty]
    simp [fpBase, fpRot60, Real.cos_pi_div_three]
    norm_num
  have hxn : translateX fpBase fpRot60 ⟨-5, 0⟩ = -(5 / 2) := by
    unfold translateX translateXC
    rw [h60, radians_sixty]
    simp [fpBase, fpRot60, Real.cos_pi_div_three]
    norm_num
  refine ⟨hxp, ?_, hxn, ?_⟩
  · show pyInt (translateX fpBase fpRot60 ⟨5, 0⟩) = 2
    rw [hxp]
    unfold pyInt
    rw [if_pos (by norm_num)]
    rw [show (2 : ℤ) = ⌊(5 / 2 : ℝ)⌋ from by rw [eq_comm, Int.floor_eq_iff]; norm_num]
  · show pyInt (translateX fpBase fpRot60 ⟨-5, 0⟩) = -2
    rw [hxn]
    unfold pyInt
    rw [if_neg (by norm_num)]
    rw [show (-2 : ℤ) = ⌈(-(5 / 2) : ℝ)⌉ from by rw [eq_comm, Int.ceil_eq_iff]; norm_num]

/-- C6 amended: the final coordinates are converted from the real-valued
computation to integers by truncation toward zero: the conversion never
increases the absolute value, differs from the exact value by less than
one, agrees with the exact value on integers (which makes repeated
synthesis of an unchanged template reproducible), and on the concrete 60
degree example maps the computed 2.5 to 2 and -2.5 to -2. -/
theorem translate_conversion_toward_zero :
    (∀ t m : Footprint, ∀ p : VECTOR2I,
      translateAt t m p =
        ⟨pyInt (translateX t m p), pyInt (translateY t m p)⟩) ∧
    (∀ r : ℝ, |(pyInt r : ℝ)| ≤ |r| ∧ |r - (pyInt r : ℝ)| < 1) ∧
    (∀ n : ℤ, pyInt (n : ℝ) = n) ∧
    pyInt (5 / 2 : ℝ) = 2 ∧ pyInt (-(5 / 2) : ℝ) = -2 := by
  refine ⟨fun t m p => rfl, fun r => ⟨?_, ?_⟩, pyInt_intCast, ?_, ?_⟩
  · unfold pyInt
    split
    · rename_i h
      rw [abs_of_nonneg h, abs_of_nonneg (by positivity : (0 : ℝ) ≤ (⌊r⌋ : ℝ))]
      exact Int.floor_le r
    · rename_i h
      push_neg at h
      have hceil : (⌈r⌉ : ℤ) ≤ 0 := Int.ceil_le.mpr (by exact_mod_cast h.le)
      rw [abs_of_neg h, abs_of_nonpos (by exact_mod_cast hceil : ((⌈r⌉ : ℤ) : ℝ) ≤ 0)]
      simp only [neg_le_neg_iff]
      exact Int.le_ceil r
  · unfold pyInt
    split
    · rw [abs_of_nonneg (by simp [Int.floor_le r] : (0 : ℝ) ≤ r - (⌊r⌋ : ℝ))]
      have := Int.lt_floor_add_one r
      linarith
    · rw [abs_of_nonpos (by simp [Int.le_ceil r] : r - ((⌈r⌉ : ℤ) : ℝ) ≤ 0)]
      have := Int.ceil_lt_add_one r
      linarith
  · unfold pyInt
    rw [if_pos (by norm_num)]
    rw [show (2 : ℤ) = ⌊(5 / 2 : ℝ)⌋ from by rw [eq_comm, Int.floor_eq_iff]; norm_num]
  · unfold pyInt
    rw [if_neg (by norm_num)]
    rw [show (-2 : ℤ) = ⌈(-(5 / 2) : ℝ)⌉ from by rw [eq_comm, Int.ceil_eq_iff]; norm_num]

/-! ## The room model (`hdata.py`, `PCBRoom`) -/

/-- The contents of a loaded template layout (`PCBRoom.subboard`). -/
structure SubBoard where
  footprints : List Footprint
  tracks : List Track
  drawings : List Drawing
  zones : List Zone

/-- `hdata.PCBRoom`: one loaded template layout with its file path and the
selected anchor footprint (held by reference; the template board is never
mutated, so a footprint value suffices). -/
structure PCBRoom where
  path : String
  subboard : SubBoard
  selected_anchor : Option Footprint

/-- Assignment `d[k] = v` on a Python dict kept as an insertion-ordered
association list: replace the value if the key exists, else append. -/
def dictSet (l : List (String × String)) (k v : String) : List (String × String) :=
  if l.any (fun e => e.1 = k) then
    l.map (fun e => if e.1 = k then (k, v) else e)
  else
    l ++ [(k, v)]

/-- `PCBRoom.get_anchor_refs`: the dict from footprint path to reference,
skipping footprints whose path is empty (`if path is None or path == "":
continue`). -/
def PCBRoom.get_anchor_refs (room : PCBRoom) : List (String × String) :=
  room.subboard.footprints.foldl
    (fun rv fp => if fp.path = "" then rv else dictSet rv fp.path fp.reference) []

/-- `PCBRoom.is_legal`: `len(self.get_anchor_refs()) > 0`. -/
def PCBRoom.is_legal (room : PCBRoom) : Bool :=
  decide (0 < room.get_anchor_refs.length)

/-! ### Claim C8: legality of a room

The claim says `is_legal` is true iff the room contains at least one
footprint, independently of the per-instance paths.  The source computes
legality from `get_anchor_refs`, which skips footprints with an empty
path, so a room whose only footprints have empty paths is illegal. -/

theorem dictSet_ne_nil (l : List (String × String)) (k v : String) :
    dictSet l k v ≠ [] := by
  unfold dictSet
  split
  · rename_i h
    cases l with
    | nil => simp at h
    | cons e es => simp
  · simp

theorem anchor_refs_fold_eq_nil (fps : List Footprint) :
    ∀ acc : List (String × String),
      (fps.foldl
        (fun rv fp => if fp.path = "" then rv else dictSet rv fp.path fp.reference)
        acc = []) ↔ (acc = [] ∧ ∀ fp ∈ fps, fp.path = "") := by
  induction fps with
  | nil => simp
  | cons fp rest ih =>
    intro acc
    simp only [List.foldl_cons]
    by_cases hp : fp.path = ""
    · rw [if_pos hp, ih]
      simp [hp]
    · rw [if_neg hp, ih]
      constructor
      · rintro ⟨hnil, -⟩
        exact absurd hnil (dictSet_ne_nil _ _ _)
      · rintro ⟨-, hall⟩
        exact absurd (hall fp (by simp)) hp

/-- C8 amended claim: `is_legal` returns true if and only if the room
contains at least one footprint with a non-empty per-instance path (the
footprints skipped by `get_anchor_refs` do not count). -/
theorem is_legal_iff_footprint_with_path (room : PCBRoom) :
    room.is_legal = true ↔
      ∃ fp ∈ room.subboard.footprints, fp.path ≠ "" := by
  unfold PCBRoom.is_legal PCBRoom.get_anchor_refs
  rw [decide_eq_true_iff, List.length_pos, ← not_iff_not]
  push_neg
  rw [anchor_refs_fold_eq_nil]
  simp

/-- A room holding exactly one footprint, whose path is empty. -/
noncomputable def roomEmptyPath : PCBRoom where
  path := "sheet.kicad_pcb"
  subboard :=
    { footprints := [{ fpBase with path := "", reference := "U1" }]
      tracks := []
      drawings := []
      zones := [] }
  selected_anchor := none

/-- C8 counterexample: a room with one footprint (so
`count(components) > 0`) whose path is empty is nevertheless illegal,
because `is_legal` counts only the footprints with a well-formed
per-instance path.  This falsifies the claim that legality is independent
of the per-instance paths. -/
theorem is_legal_depends_on_paths :
    0 < roomEmptyPath.subboard.footprints.length ∧
      roomEmptyPath.is_legal = false := by
  constructor
  · simp [roomEmptyPath]
  · rfl

/-! ### Claim C7: the heuristic anchor chooser
(`PCBRoom.get_heuristic_anchor_ref`) -/

/-- `ref.rstrip(string.digits)`: the reference label with trailing decimal
digits stripped. -/
def refStripDigits (s : String) : String :=
  ⟨(s.toList.reverse.dropWhile Char.isDigit).reverse⟩

/-- The count, over all footprints of the room, of references sharing the
stripped prefix of `r` (the `prefixes` defaultdict of the source). -/
def sharedStemCount (fps : List Footprint) (r : String) : ℕ :=
  fps.countP (fun fp2 => refStripDigits fp2.reference = refStripDigits r)

/-- The comparison tuple `(-area, prefixes[prefix(ref)], ref)` built for
each footprint by `get_heuristic_anchor_ref`. -/
def heuristicTuple (fps : List Footprint) (fp : Footprint) : ℚ × ℕ × String :=
  (-fp.area, sharedStemCount fps fp.reference, fp.reference)

/-- Python comparison of the heuristic tuples: lexicographic on
(rational, natural, string). -/
def tupLt (a b : ℚ × ℕ × String) : Prop :=
  a.1 < b.1 ∨ (a.1 = b.1 ∧ (a.2.1 < b.2.1 ∨ (a.2.1 = b.2.1 ∧ a.2.2 < b.2.2)))

/-- Repackaging of a heuristic tuple in the Mathlib lexicographic order;
used only to derive the order-theoretic facts about `tupLt`. -/
def tupKey (a : ℚ × ℕ × String) : Lex (ℚ × Lex (ℕ × String)) :=
  toLex (a.1, toLex (a.2.1, a.2.2))

theorem tupLt_iff (a b : ℚ × ℕ × String) : tupLt a b ↔ tupKey a < tupKey b := by
  unfold tupLt tupKey
  rw [Prod.Lex.lt_iff, Prod.Lex.lt_iff]

theorem tupKey_inj {a b : ℚ × ℕ × String} (h : tupKey a = tupKey b) : a = b := by
  unfold tupKey at h
  have h1 := congrArg ofLex h
  have h2 := congrArg Prod.fst h1
  have h3 := congrArg (fun p => ofLex p.2) h1
  simp at h1 h2 h3
  exact Prod.ext h2 h3

instance tupLtDec : ∀ a b : ℚ × ℕ × String, Decidable (tupLt a b) := by
  intro a b
  unfold tupLt
  infer_instance

theorem tupLt_irrefl (a : ℚ × ℕ × String) : ¬ tupLt a a := by
  rw [tupLt_iff]
  exact lt_irrefl _

theorem tupLt_trans {a b c : ℚ × ℕ × String} (h1 : tupLt a b) (h2 : tupLt b c) :
    tupLt a c := by
  rw [tupLt_iff] at *
  exact lt_trans h1 h2

theorem tupLt_connex {a b : ℚ × ℕ × String} (h : a ≠ b) : tupLt a b ∨ tupLt b a := by
  rw [tupLt_iff, tupLt_iff]
  rcases lt_or_gt_of_ne (fun hk => h (tupKey_inj hk)) with hlt | hgt
  · exact Or.inl hlt
  · exact Or.inr hgt

/-- The Python builtin `min` over a non-empty list (first element plus
rest), keeping the earlier element on ties. -/
def pyMin (x : ℚ × ℕ × String) (xs : List (ℚ × ℕ × String)) : ℚ × ℕ × String :=
  xs.foldl (fun acc y => if tupLt y acc then y else acc) x

/-- `PCBRoom.get_heuristic_anchor_ref` over the footprint list of the
room.  Python `min` raises `ValueError` on an empty list; the empty case
is mapped to `none` and never relied upon. -/
def heuristicAnchorRef (fps : List Footprint) : Option String :=
  match fps.map (heuristicTuple fps) with
  | [] => none
  | t :: ts => some (pyMin t ts).2.2

/-- `PCBRoom.get_heuristic_anchor_ref`. -/
def PCBRoom.get_heuristic_anchor_ref (room : PCBRoom) : Option String :=
  heuristicAnchorRef room.subboard.footprints

theorem pyMin_mem (x : ℚ × ℕ × String) (xs : List (ℚ × ℕ × String)) :
    pyMin x xs ∈ x :: xs := by
  induction xs generalizing x with
  | nil => simp [pyMin]
  | cons y ys ih =>
    simp only [pyMin, List.foldl_cons]
    have h := ih (if tupLt y x then y else x)
    simp only [pyMin] at h
    rcases List.mem_cons.mp h with h1 | h1
    · rw [h1]
      split
      · exact List.mem_cons_of_mem _ (List.mem_cons_self _ _)
      · exact List.mem_cons_self _ _
    · exact List.mem_cons_of_mem _ (List.mem_cons_of_mem _ h1)

theorem pyMin_not_lt (x : ℚ × ℕ × String) (xs : List (ℚ × ℕ × String)) :
    ∀ y ∈ x :: xs, ¬ tupLt y (pyMin x xs) := by
  induction xs generalizing x with
  | nil =>
    intro z hz
    simp at hz
    rw [hz]
    simp [pyMin]
    exact tupLt_irrefl x
  | cons y ys ih =>
    intro z hz
    simp only [pyMin, List.foldl_cons]
    have hbound := ih (if tupLt y x then y else x)
    simp only [pyMin] at hbound
    have hacc : ¬ tupLt (if tupLt y x then y else x)
        (List.foldl (fun acc y => if tupLt y acc then y else acc)
          (if tupLt y x then y else x) ys) :=
      hbound _ (List.mem_cons_self _ _)
    rcases List.mem_cons.mp hz with h1 | h1
    · subst h1
      by_cases hyx : tupLt y z
      · rw [if_pos hyx] at hacc ⊢
        intro hcon
        exact hacc (tupLt_trans hyx hcon)
      · rw [if_neg hyx] at hacc ⊢
        exact hacc
    · rcases List.mem_cons.mp h1 with h2 | h2
      · subst h2
        by_cases hyx : tupLt z x
        · rw [if_pos hyx] at hacc ⊢
          exact hacc
        · rw [if_neg hyx] at hacc ⊢
          intro hcon
          by_cases heq : z = x
          · rw [heq] at hcon
            exact hacc hcon
          · rcases tupLt_connex heq with h3 | h3
            · exact hyx h3
            · exact hacc (tupLt_trans h3 hcon)
      · exact hbound z (List.mem_cons_of_mem _ h2)

theorem pyMin_unique {l : List (ℚ × ℕ × String)} {r1 r2 : ℚ × ℕ × String}
    (h1 : r1 ∈ l) (h2 : r2 ∈ l)
    (b1 : ∀ y ∈ l, ¬ tupLt y r1) (b2 : ∀ y ∈ l, ¬ tupLt y r2) : r1 = r2 := by
  by_contra hne
  rcases tupLt_connex hne with h | h
  · exact b2 r1 h1 h
  · exact b1 r2 h2 h

theorem heuristicAnchorRef_cons (f : Footprint) (fs : List Footprint) :
    heuristicAnchorRef (f :: fs) =
      some (pyMin (heuristicTuple (f :: fs) f)
        (fs.map (heuristicTuple (f :: fs)))).2.2 := rfl

theorem heuristicAnchorRef_min (fps : List Footprint) (hne : fps ≠ []) :
    ∃ fp ∈ fps, heuristicAnchorRef fps = some fp.reference ∧
      ∀ fp2 ∈ fps,
        ¬ tupLt (heuristicTuple fps fp2) (heuristicTuple fps fp) := by
  match fps, hne with
  | f :: fs, _ =>
    have hmem : pyMin (heuristicTuple (f :: fs) f) (fs.map (heuristicTuple (f :: fs)))
        ∈ (f :: fs).map (heuristicTuple (f :: fs)) :=
      pyMin_mem _ _
    obtain ⟨fp, hfp, heq⟩ := List.mem_map.mp hmem
    refine ⟨fp, hfp, ?_, ?_⟩
    · rw [heuristicAnchorRef_cons, ← heq]
      rfl
    · intro fp2 hfp2
      have h2 : heuristicTuple (f :: fs) fp2 ∈ (f :: fs).map (heuristicTuple (f :: fs)) :=
        List.mem_map_of_mem _ hfp2
      have hb := pyMin_not_lt (heuristicTuple (f :: fs) f)
        (fs.map (heuristicTuple (f :: fs))) _ h2
      rw [heq]
      exact hb

theorem heuristicAnchorRef_perm (fps fps2 : List Footprint) (hp : fps.Perm fps2) :
    heuristicAnchorRef fps = heuristicAnchorRef fps2 := by
  have htup : heuristicTuple fps = heuristicTuple fps2 := by
    funext fp
    unfold heuristicTuple sharedStemCount
    rw [hp.countP_eq]
  match fps, fps2, hp with
  | [], [], _ => rfl
  | [], g :: gs, hp => exact absurd hp.length_eq (by simp)
  | f :: fs, [], hp => exact absurd hp.length_eq (by simp)
  | f :: fs, g :: gs, hp =>
    have hL : ((f :: fs).map (heuristicTuple (f :: fs))).Perm
        ((g :: gs).map (heuristicTuple (g :: gs))) := by
      rw [htup]
      exact hp.map _
    have hr1 : pyMin (heuristicTuple (f :: fs) f) (fs.map (heuristicTuple (f :: fs)))
        ∈ (f :: fs).map (heuristicTuple (f :: fs)) := pyMin_mem _ _
    have hr2 : pyMin (heuristicTuple (g :: gs) g) (gs.map (heuristicTuple (g :: gs)))
        ∈ (g :: gs).map (heuristicTuple (g :: gs)) := pyMin_mem _ _
    have b1 : ∀ y ∈ (f :: fs).map (heuristicTuple (f :: fs)),
        ¬ tupLt y (pyMin (heuristicTuple (f :: fs) f)
          (fs.map (heuristicTuple (f :: fs)))) := pyMin_not_lt _ _
    have b2 : ∀ y ∈ (g :: gs).map (heuristicTuple (g :: gs)),
        ¬ tupLt y (pyMin (heuristicTuple (g :: gs) g)
          (gs.map (heuristicTuple (g :: gs)))) := pyMin_not_lt _ _
    have huniq := pyMin_unique (hL.mem_iff.mp hr1) hr2
      (fun y hy => b1 y (hL.mem_iff.mpr hy)) b2
    rw [heuristicAnchorRef_cons, heuristicAnchorRef_cons, huniq]

/-- Template components of the C7 scenario: `U1` with area 1.0 and `R1`
with area 0.1. -/
noncomputable def fpU1 : Footprint :=
  { fpBase with reference := "U1", area := 1, path := "/u1" }

/-- The second component of the C7 scenario. -/
noncomputable def fpR1 : Footprint :=
  { fpBase with reference := "R1", area := 1 / 10, path := "/r1" }

/-- The room of the C7 scenario. -/
noncomputable def roomU1R1 : PCBRoom where
  path := "sheet.kicad_pcb"
  subboard := { footprints := [fpU1, fpR1], tracks := [], drawings := [], zones := [] }
  selected_anchor := none

/-- C7: for every non-empty list of room components,
`get_heuristic_anchor_ref` returns the reference of a component whose
tuple `(-area, countOfComponentsSharingTheStrippedPrefix, reference)` is
minimal in the room; the result is invariant under permutation of the
component enumeration order; and for a room with exactly the components
`U1` (area 1.0) and `R1` (area 0.1) it returns `"U1"`. -/
theorem heuristic_anchor_correct :
    (∀ fps : List Footprint, fps ≠ [] →
      ∃ fp ∈ fps, heuristicAnchorRef fps = some fp.reference ∧
        ∀ fp2 ∈ fps,
          ¬ tupLt (heuristicTuple fps fp2) (heuristicTuple fps fp)) ∧
    (∀ fps fps2 : List Footprint, fps.Perm fps2 →
      heuristicAnchorRef fps = heuristicAnchorRef fps2) ∧
    roomU1R1.get_heuristic_anchor_ref = some "U1" := by
  refine ⟨heuristicAnchorRef_min, heuristicAnchorRef_perm, ?_⟩
  have hnot : ¬ tupLt (heuristicTuple [fpU1, fpR1] fpR1)
      (heuristicTuple [fpU1, fpR1] fpU1) := by
    unfold tupLt heuristicTuple
    simp [fpU1, fpR1, fpBase]
    norm_num
  show heuristicAnchorRef [fpU1, fpR1] = some "U1"
  rw [heuristicAnchorRef_cons]
  simp only [List.map_cons, List.map_nil, pyMin, List.foldl_cons, List.foldl_nil]
  rw [if_neg hnot]
  simp [heuristicTuple, fpU1, fpBase]

/-- Witness for C7: the minimality statement applied to the concrete
two-component room, and determinism applied to the swapped enumeration. -/
theorem heuristic_anchor_correct_witness :
    (∃ fp ∈ ([fpU1, fpR1] : List Footprint),
      heuristicAnchorRef [fpU1, fpR1] = some fp.reference ∧
        ∀ fp2 ∈ ([fpU1, fpR1] : List Footprint),
          ¬ tupLt (heuristicTuple [fpU1, fpR1] fp2)
            (heuristicTuple [fpU1, fpR1] fp)) ∧
    heuristicAnchorRef [fpU1, fpR1] = heuristicAnchorRef [fpR1, fpU1] :=
  ⟨heuristic_anchor_correct.1 [fpU1, fpR1] (by simp),
   heuristic_anchor_correct.2.1 [fpU1, fpR1] [fpR1, fpU1] (List.Perm.swap _ _ _)⟩

/-! ## Scope-path extraction (`hdata.py`, `get_sheet_key_from_footprint`) -/

/-- Python `s.split("/")` on the character list of a path string: always
returns at least one (possibly empty) segment. -/
def splitSlash : List Char → List (List Char)
  | [] => [[]]
  | c :: cs =>
    if c = '/' then [] :: splitSlash cs
    else
      match splitSlash cs with
      | [] => [[c]]
      | seg :: rest => (c :: seg) :: rest

/-- `get_sheet_key_from_footprint`, on the footprint path string:
`key = path.split("/")`; paths with at most one segment are skipped
(`None`); otherwise the code asserts `key[0] == ""` and returns
`tuple(key[1:-1])`. -/
def get_sheet_key_from_footprint (path : List Char) :
    Except String (Option (List (List Char))) :=
  let key := splitSlash path
  if key.length ≤ 1 then .ok none
  else if key.head? = some [] then .ok (some ((key.drop 1).dropLast))
  else .error "AssertionError"

theorem splitSlash_ne_nil (cs : List Char) : splitSlash cs ≠ [] := by
  match cs with
  | [] => simp [splitSlash]
  | c :: cs =>
    unfold splitSlash
    split
    · simp
    · split <;> simp

theorem splitSlash_length_le_one_iff (cs : List Char) :
    (splitSlash cs).length ≤ 1 ↔ '/' ∉ cs := by
  induction cs with
  | nil => simp [splitSlash]
  | cons c cs ih =>
    unfold splitSlash
    by_cases hc : c = '/'
    · rw [if_pos hc]
      subst hc
      simp only [List.length_cons]
      constructor
      · intro hlen
        have := List.length_pos.mpr (splitSlash_ne_nil cs)
        omega
      · intro hmem
        exact absurd (by simp : '/' ∈ '/' :: cs) hmem
    · rw [if_neg hc]
      rcases hsp : splitSlash cs with - | ⟨seg, rest⟩
      · exact absurd hsp (splitSlash_ne_nil cs)
      · rw [hsp] at ih
        simp only [List.length_cons] at ih ⊢
        rw [List.mem_cons, not_or]
        constructor
        · intro hlen
          exact ⟨fun h => hc h.symm, ih.mp hlen⟩
        · intro h
          exact ih.mpr h.2

theorem splitSlash_head_empty_iff (cs : List Char) :
    (splitSlash cs).head? = some [] ↔ (cs = [] ∨ cs.head? = some '/') := by
  match cs with
  | [] => simp [splitSlash]
  | c :: cs =>
    unfold splitSlash
    by_cases hc : c = '/'
    · rw [if_pos hc]
      simp [hc]
    · rw [if_neg hc]
      rcases hsp : splitSlash cs with - | ⟨seg, rest⟩
      · exact absurd hsp (splitSlash_ne_nil cs)
      · simp [hc]

/-- C9 counterexample: the multi-segment path `a/b` does not begin with
the separator, so `get_sheet_key_from_footprint` raises an
`AssertionError` (`assert key[0] == ""`) instead of skipping the entity:
scope-path extraction is not total. -/
theorem sheet_key_raises_on_relative_path :
    get_sheet_key_from_footprint ['a', '/', 'b'] = .error "AssertionError" := by
  rfl

/-- C9 amended claim: scope-path extraction is total exactly on the paths
with no separator (skipped, `none`) and on the paths beginning with the
separator (parsed); on every multi-segment path that does not begin with
the separator it raises an `AssertionError`. -/
theorem sheet_key_extraction_characterization (path : List Char) :
    ((∃ e, get_sheet_key_from_footprint path = .error e) ↔
      ('/' ∈ path ∧ path.head? ≠ some '/')) ∧
    (get_sheet_key_from_footprint path = .ok none ↔ '/' ∉ path) ∧
    ('/' ∈ path → path.head? = some '/' →
      ∃ k, get_sheet_key_from_footprint path = .ok (some k)) := by
  have hne : path ≠ [] → ('/' ∈ path → path.head? ≠ some '/' → True) := fun _ _ _ => trivial
  unfold get_sheet_key_from_footprint
  by_cases hlen : (splitSlash path).length ≤ 1
  · rw [if_pos hlen]
    have hmem : '/' ∉ path := (splitSlash_length_le_one_iff path).mp hlen
    refine ⟨?_, ?_, ?_⟩
    · simp [hmem]
    · simp [hmem]
    · intro h
      exact absurd h hmem
  · rw [if_neg hlen]
    have hmem : '/' ∈ path := by
      by_contra hno
      exact hlen ((splitSlash_length_le_one_iff path).mpr hno)
    have hpathne : path ≠ [] := by
      intro h
      rw [h] at hmem
      exact absurd hmem (List.not_mem_nil _)
    by_cases hhead : (splitSlash path).head? = some []
    · rw [if_pos hhead]
      have hstart : path.head? = some '/' := by
        rcases (splitSlash_head_empty_iff path).mp hhead with h | h
        · exact absurd h hpathne
        · exact h
      refine ⟨?_, ?_, ?_⟩
      · simp [hstart]
      · simp [hmem]
      · intro _ _
        exact ⟨_, rfl⟩
    · rw [if_neg hhead]
      have hstart : path.head? ≠ some '/' := by
        intro h
        exact hhead ((splitSlash_head_empty_iff path).mpr (Or.inr h))
      refine ⟨?_, ?_, ?_⟩
      · simp [hmem, hstart]
      · simp [hmem]
      · intro _ h
        exact absurd h hstart

/-! ## The configuration store (`cfgman.py`, `ConfigMan`) -/

/-- A JSON value, as held by `ConfigMan.config`.  Python `None` is the
JSON `null`. -/
inductive JVal where
  | null
  | bool (b : Bool)
  | num (q : ℚ)
  | str (s : String)
  | obj (entries : List (String × JVal))

/-- Python `dict.get(k)` on an object: the stored value, or `None` when
the key is missing.  A stored `null` is indistinguishable from a missing
key. -/
def jGet (entries : List (String × JVal)) (k : String) : JVal :=
  (entries.lookup k).getD .null

/-- Python dict assignment `d[k] = v`, preserving insertion order. -/
def dictSetJ (l : List (String × JVal)) (k : String) (v : JVal) :
    List (String × JVal) :=
  if l.any (fun e => e.1 = k) then
    l.map (fun e => if e.1 = k then (k, v) else e)
  else
    l ++ [(k, v)]

/-- The loop of `ConfigMan.get`: walk the key path; a `None` node (missing
or stored null) returns the default; calling `.get` on a non-dict node
raises `AttributeError`. -/
def cfgGetGo : JVal → List String → JVal → Except String JVal
  | node, [], _ => .ok node
  | node, k :: ks, dflt =>
    match node with
    | .obj entries =>
      match jGet entries k with
      | .null => .ok dflt
      | nxt => cfgGetGo nxt ks dflt
    | _ => .error "AttributeError"

/-- `ConfigMan.get(*key, default=dflt)`.  The store is read only: the
function consumes the configuration value and returns a result without
producing a new store. -/
def ConfigMan.get (config : JVal) (key : List String) (dflt : JVal) :
    Except String JVal :=
  cfgGetGo config key dflt

/-- The walk of `ConfigMan.set` over `key[:-1]` followed by the terminal
assignment: missing (or null) intermediate nodes are created as empty
dicts (`create_missing`); a non-dict node raises.  The Python original
mutates in place, so intermediate dicts created before an exception
survive it; the claims examined here only concern the success path, where
the functional result agrees with the mutated store. -/
def cfgSetGo : JVal → List String → String → JVal → Except String JVal
  | .obj entries, [], terminal, v => .ok (.obj (dictSetJ entries terminal v))
  | .obj entries, k :: ks, terminal, v =>
    let nxt :=
      match jGet entries k with
      | .null => JVal.obj []
      | w => w
    match cfgSetGo nxt ks terminal v with
    | .ok nxt2 => .ok (.obj (dictSetJ entries k nxt2))
    | .error e => .error e
  | _, _, _, _ => .error "AttributeError"

/-- `ConfigMan.set(*key, value=v)`: `key[-1]` on an empty key path raises
`IndexError`. -/
def ConfigMan.set (config : JVal) (key : List String) (v : JVal) :
    Except String JVal :=
  match key with
  | [] => .error "IndexError"
  | k :: ks =>
    cfgSetGo config ((k :: ks).dropLast) ((k :: ks).getLast (List.cons_ne_nil k ks)) v

/-- The `ConfigMan.get` walk reaches a missing (or stored-null) key while
every traversed intermediate node is a dict. -/
def hitsMissing : JVal → List String → Bool
  | _, [] => false
  | .obj entries, k :: ks =>
    match jGet entries k with
    | .null => true
    | nxt => hitsMissing nxt ks
  | _, _ => false

theorem jGet_dictSetJ_self (l : List (String × JVal)) (k : String) (v : JVal) :
    jGet (dictSetJ l k v) k = v := by
  induction l with
  | nil => simp [dictSetJ, jGet, List.lookup]
  | cons e es ih =>
    by_cases hk : e.1 = k
    · unfold dictSetJ
      rw [if_pos (by simp [hk])]
      simp only [List.map_cons, if_pos hk]
      simp [jGet, List.lookup]
    · unfold dictSetJ at ih ⊢
      have hany : (e :: es).any (fun e => e.1 = k) = es.any (fun e => e.1 = k) := by
        simp [hk]
      rw [hany]
      by_cases ha : es.any (fun e => e.1 = k)
      · rw [if_pos ha]
        rw [if_pos ha] at ih
        simp only [List.map_cons, if_neg hk]
        simp only [jGet, List.lookup] at ih ⊢
        rw [show (k == e.1) = false from by simp [Ne.symm hk]]
        simp only [cond_false]
        exact ih
      · rw [if_neg ha]
        rw [if_neg ha] at ih
        simp only [List.cons_append]
        simp only [jGet, List.lookup] at ih ⊢
        rw [show (k == e.1) = false from by simp [Ne.symm hk]]
        simp only [cond_false]
        exact ih

theorem cfgGetGo_obj_cons (entries : List (String × JVal)) (k : String)
    (ks : List String) (d : JVal) :
    cfgGetGo (.obj entries) (k :: ks) d =
      (match jGet entries k with
       | .null => .ok d
       | nxt => cfgGetGo nxt ks d) := rfl

theorem cfgSetGo_obj_nil (entries : List (String × JVal)) (t : String) (v : JVal) :
    cfgSetGo (.obj entries) [] t v = .ok (.obj (dictSetJ entries t v)) := rfl

theorem cfgSetGo_obj_cons (entries : List (String × JVal)) (k : String)
    (ks : List String) (t : String) (v : JVal) :
    cfgSetGo (.obj entries) (k :: ks) t v =
      (match cfgSetGo
          (match jGet entries k with | .null => JVal.obj [] | w => w) ks t v with
       | .ok nxt2 => .ok (.obj (dictSetJ entries k nxt2))
       | .error e => .error e) := rfl

theorem cfgSetGo_ok_obj {node : JVal} {pre : List String} {t : String}
    {v node2 : JVal} (h : cfgSetGo node pre t v = .ok node2) :
    ∃ entries, node2 = .obj entries := by
  match node, pre with
  | .obj entries, [] =>
    rw [cfgSetGo_obj_nil] at h
    simp only [Except.ok.injEq] at h
    exact ⟨_, h.symm⟩
  | .obj entries, k :: ks =>
    rw [cfgSetGo_obj_cons] at h
    rcases hrec : cfgSetGo
        (match jGet entries k with | .null => JVal.obj [] | w => w) ks t v with e | n2
    · rw [hrec] at h
      exact absurd h (by simp)
    · rw [hrec] at h
      simp only [Except.ok.injEq] at h
      exact ⟨_, h.symm⟩
  | .null, _ => exact absurd h (by cases pre <;> simp [cfgSetGo])
  | .bool b, _ => exact absurd h (by cases pre <;> simp [cfgSetGo])
  | .num q, _ => exact absurd h (by cases pre <;> simp [cfgSetGo])
  | .str s, _ => exact absurd h (by cases pre <;> simp [cfgSetGo])

theorem cfg_set_get_core (pre : List String) :
    ∀ (node : JVal) (t : String) (v node2 d : JVal), v ≠ .null →
      cfgSetGo node pre t v = .ok node2 →
      cfgGetGo node2 (pre ++ [t]) d = .ok v := by
  induction pre with
  | nil =>
    intro node t v node2 d hv hset
    match node with
    | .obj entries =>
      rw [cfgSetGo_obj_nil] at hset
      simp only [Except.ok.injEq] at hset
      subst hset
      rw [List.nil_append, cfgGetGo_obj_cons, jGet_dictSetJ_self]
      match v, hv with
      | .null, hv => exact absurd rfl hv
      | .bool b, _ => rfl
      | .num q, _ => rfl
      | .str s, _ => rfl
      | .obj o, _ => rfl
    | .null => exact absurd hset (by simp [cfgSetGo])
    | .bool b => exact absurd hset (by simp [cfgSetGo])
    | .num q => exact absurd hset (by simp [cfgSetGo])
    | .str s => exact absurd hset (by simp [cfgSetGo])
  | cons k ks ih =>
    intro node t v node2 d hv hset
    match node with
    | .obj entries =>
      rw [cfgSetGo_obj_cons] at hset
      rcases hrec : cfgSetGo
          (match jGet entries k with | .null => JVal.obj [] | w => w) ks t v with e | n2
      · rw [hrec] at hset
        exact absurd hset (by simp)
      · rw [hrec] at hset
        simp only [Except.ok.injEq] at hset
        subst hset
        obtain ⟨entries2, hobj⟩ := cfgSetGo_ok_obj hrec
        rw [List.cons_append, cfgGetGo_obj_cons, jGet_dictSetJ_self]
        have hih := ih _ t v n2 d hv hrec
        rw [hobj] at hih ⊢
        exact hih
    | .null => exact absurd hset (by simp [cfgSetGo])
    | .bool b => exact absurd hset (by simp [cfgSetGo])
    | .num q => exact absurd hset (by simp [cfgSetGo])
    | .str s => exact absurd hset (by simp [cfgSetGo])

theorem cfg_get_missing_default (key : List String) :
    ∀ (config d : JVal), hitsMissing config key = true →
      ConfigMan.get config key d = .ok d := by
  induction key with
  | nil =>
    intro config d h
    simp [hitsMissing] at h
  | cons k ks ih =>
    intro config d h
    match config with
    | .obj entries =>
      simp only [hitsMissing] at h
      unfold ConfigMan.get
      rw [cfgGetGo_obj_cons]
      rcases hj : jGet entries k with - | b | q | s | o
      · rfl
      · rw [hj] at h
        exact ih _ d h
      · rw [hj] at h
        exact ih _ d h
      · rw [hj] at h
        exact ih _ d h
      · rw [hj] at h
        exact ih _ d h
    | .null => simp [hitsMissing] at h
    | .bool b => simp [hitsMissing] at h
    | .num q => simp [hitsMissing] at h
    | .str s => simp [hitsMissing] at h

/-- C10 amended claim: for every key path and every non-null value, a
successful `set` followed by `get` of the same path returns that value;
and whenever the `get` walk meets an absent key (with dict intermediates
along the traversed part of the path), `get` returns the default.  The
store is a value: `get` by construction cannot modify it.  For a null
value the round trip fails (see the counterexample), because a stored
`None` is indistinguishable from a missing key. -/
theorem configman_set_get (config : JVal) (key : List String)
    (v node2 d : JVal) (hkey : key ≠ []) (hv : v ≠ .null)
    (hset : ConfigMan.set config key v = .ok node2) :
    ConfigMan.get node2 key d = .ok v ∧
      (∀ cfg dflt, hitsMissing cfg key = true →
        ConfigMan.get cfg key dflt = .ok dflt) := by
  constructor
  · match key, hkey with
    | k :: ks, _ =>
      unfold ConfigMan.set at hset
      have hkeyeq : (k :: ks).dropLast ++ [(k :: ks).getLast (List.cons_ne_nil k ks)]
          = k :: ks := List.dropLast_append_getLast (List.cons_ne_nil k ks)
      have := cfg_set_get_core ((k :: ks).dropLast) config
        ((k :: ks).getLast (List.cons_ne_nil k ks)) v node2 d hv hset
      rw [hkeyeq] at this
      exact this
  · intro cfg dflt h
    exact cfg_get_missing_default key cfg dflt h

/-- C10 counterexample: storing the value `None` (JSON null) and reading
it back returns the default, not the stored value: `set("a", None)`
succeeds, yet `get("a", default="d")` yields `"d"`.  The claim that
`set(*key, value)` followed by `get(*key)` returns that value for every
value is false. -/
theorem configman_null_roundtrip_fails :
    ConfigMan.set (.obj []) ["a"] .null = .ok (.obj [("a", .null)]) ∧
      ConfigMan.get (.obj [("a", .null)]) ["a"] (.str "d") = .ok (.str "d") := by
  constructor
  · rfl
  · rfl

/-- Witness for C10: the round trip at a concrete two-level path with a
non-null value, and the default at a concretely absent key. -/
theorem configman_set_get_witness :
    ConfigMan.get (.obj [("a", .obj [("b", .str "x")])]) ["a", "b"] .null
        = .ok (.str "x") ∧
      ConfigMan.get (.obj []) ["a", "b"] (.str "d") = .ok (.str "d") := by
  have h := configman_set_get (.obj []) ["a", "b"] (.str "x")
    (.obj [("a", .obj [("b", .str "x")])]) .null (by simp) (by simp) (by rfl)
  exact ⟨h.1, h.2 (.obj []) (.str "d") (by rfl)⟩

/-! ## The sheet tree (`hdata.py`, `SchSheet`)

A `SchSheet` holds its local id, the child dict (insertion-ordered
association list), the sheet file/name metadata, the optional bound room,
and the checked flag.  The parent back-pointer of the source is not
stored; the full-path identifier is reconstructed while walking the tree.
-/

inductive SchSheet where
  | mk (sheetid : String) (children : List (String × SchSheet))
      (file : Option String) (name : Option String)
      (pcb : Option PCBRoom) (checked : Bool)

def SchSheet.sheetid : SchSheet → String
  | .mk s _ _ _ _ _ => s

def SchSheet.children : SchSheet → List (String × SchSheet)
  | .mk _ c _ _ _ _ => c

def SchSheet.file : SchSheet → Option String
  | .mk _ _ f _ _ _ => f

def SchSheet.name : SchSheet → Option String
  | .mk _ _ _ n _ _ => n

def SchSheet.pcb : SchSheet → Option PCBRoom
  | .mk _ _ _ _ p _ => p

def SchSheet.checked : SchSheet → Bool
  | .mk _ _ _ _ _ c => c

/-! ### Claim C1: `SchSheet.set_checked_default`

The method body sets `self.checked` and then recurses with
`child.set_checked_default(child, self.checked or ancestor_checked)`.
The recursive call passes `child` as an extra positional argument to a
bound method that accepts only one, so Python rejects it with a
`TypeError` before entering the child: on every tree that has at least
one child the default-selection operation raises instead of computing the
default selection.  The embedding returns the updated node when there are
no children, and the `TypeError` on the first child otherwise (the
partial mutation of `self.checked` before the raise is not observable
through the exception path modelled here). -/

def SchSheet.set_checked_default (s : SchSheet) (ancestor_checked : Bool) :
    Except String SchSheet :=
  match s with
  | .mk sid ch f n pcb _ =>
    let newChecked :=
      match pcb with
      | some room => room.is_legal && !ancestor_checked
      | none => false
    match ch with
    | [] => .ok (.mk sid ch f n pcb newChecked)
    | _ :: _ =>
      .error "TypeError: set_checked_default() takes from 1 to 2 positional arguments but 3 were given"

/-- A two-node tree: a root with a single child bound to a legal room. -/
noncomputable def twoNodeTree : SchSheet :=
  .mk "" [("s1", .mk "s1" [] (some "sheet.kicad_sch") (some "s1")
    (some roomU1R1) false)] none none none false

/-- C1: evaluating the default-selection operation on a concrete two-node
tree whose child carries a legal room: the run raises a `TypeError`
instead of producing a selection, so the claimed selection invariant is
never established by this code.  (A childless root, by contrast,
completes.) -/
theorem set_checked_default_raises :
    twoNodeTree.set_checked_default false =
      .error "TypeError: set_checked_default() takes from 1 to 2 positional arguments but 3 were given" ∧
    (SchSheet.mk "s1" [] none none (some roomU1R1) false).set_checked_default false =
      .ok (.mk "s1" [] none none (some roomU1R1) true) := by
  constructor
  · rfl
  · show Except.ok (SchSheet.mk "s1" [] none none (some roomU1R1)
      (roomU1R1.is_legal && !false)) = _
    rw [show roomU1R1.is_legal = true from rfl]
    rfl

/-! ## The target board and the synthesis engine (`placement.py`)

The target board holds the footprint list (stable: the engine never adds
or removes footprints, only mutates them in place, so a footprint object
reference is modelled by its index), the connection/graphic/zone items
(multisets: the engine removes and re-adds them wholesale and their
identity is not observable), the net registry (by name; never mutated by
the engine) and the set of group names present on the board.

`pcbnew.BOARD_ITEM.Duplicate` returns a copy that belongs to no group, so
the generated item values are inserted directly with their final state
(the source mutates the fresh duplicate in place before or after
`board.Add`, which cannot be observed on the final board). -/

structure Board where
  footprints : List Footprint
  tracks : Multiset Track
  drawings : Multiset Drawing
  zones : Multiset Zone
  nets : List String
  groups : List String

/-- Read the current state of the footprint object at index `i`. -/
noncomputable def getFp (b : Board) (i : ℕ) : Footprint :=
  b.footprints.getD i fpBase

/-- Mutate the footprint object at index `i` in place. -/
noncomputable def updFp (b : Board) (i : ℕ) (f : Footprint → Footprint) : Board :=
  { b with footprints := b.footprints.set i (f (getFp b i)) }

/-- `placement.ErrorLevel`. -/
def ErrorLevel.INFO : ℕ := 0

def ErrorLevel.WARNING : ℕ := 1

def ErrorLevel.ERROR : ℕ := 2

/-- `placement.ReportedError`, with the constructor defaults of the
source. -/
structure ReportedError where
  title : String
  message : Option String := none
  level : ℕ := ErrorLevel.ERROR
  footprint : Option Footprint := none
  sheet : Option String := none
  pcb : Option PCBRoom := none

/-- `placement.PositionTransform`: the template anchor footprint (the
template is never mutated, so a value suffices) and the target anchor
footprint held by reference (index into the board footprint list; every
use reads the current board state). -/
structure PositionTransform where
  anchor_template : Footprint
  anchor_mutate : ℕ

/-- `PositionTransform.translate`, reading the target anchor live. -/
noncomputable def PositionTransform.translate (tr : PositionTransform)
    (b : Board) (p : VECTOR2I) : VECTOR2I :=
  translateAt tr.anchor_template (getFp b tr.anchor_mutate) p

/-- `PositionTransform.orient`, reading the target anchor live. -/
noncomputable def PositionTransform.orient (tr : PositionTransform)
    (b : Board) (r : ℝ) : ℝ :=
  orientAt tr.anchor_template (getFp b tr.anchor_mutate) r

/-- `GroupManager.create_or_get`: add the named group to the board if it
does not exist. -/
def create_or_get (b : Board) (group_name : String) : Board :=
  if b.groups.contains group_name then b
  else { b with groups := b.groups ++ [group_name] }

/-- `GroupManager.move` on a footprint: force it into the named group,
returning whether it had to be moved out of a different group. -/
noncomputable def groupMoveFp (b : Board) (i : ℕ) (g : String) : Board × Bool :=
  match (getFp b i).group with
  | some g2 =>
    if g2 ≠ g then (updFp b i (fun x => { x with group := some g }), true)
    else (b, false)
  | none => (updFp b i (fun x => { x with group := some g }), false)

/-- `clear_traces`: remove every `PCB_TRACK` or `ZONE` in the group. -/
def clear_traces (b : Board) (g : String) : Board :=
  { b with
    tracks := b.tracks.filter (fun t => ¬ t.group = some g)
    zones := b.zones.filter (fun z => ¬ z.group = some g) }

/-- `clear_drawings`: remove every `PCB_SHAPE` or `PCB_TEXT` in the
group (every drawing of the model). -/
def clear_drawings (b : Board) (g : String) : Board :=
  { b with drawings := b.drawings.filter (fun d2 => ¬ d2.group = some g) }

/-- `clear_zones`: remove every `ZONE` in the group. -/
def clear_zones (b : Board) (g : String) : Board :=
  { b with zones := b.zones.filter (fun z => ¬ z.group = some g) }

/-- `find_or_set_net`: the board net with the same name if it exists,
else the unconnected net (empty name). -/
def find_or_set_net (b : Board) (name : String) : String :=
  if b.nets.contains name then name else ""

/-- `copy_traces`: duplicate every template track into the board with the
net remapped by name, the endpoints transformed, vias pinned, and the
duplicate moved into the group. -/
noncomputable def copy_traces (b : Board) (room : PCBRoom)
    (tr : PositionTransform) (g : String) : Board :=
  { b with
    tracks := b.tracks + ↑(room.subboard.tracks.map (fun tk =>
      { tk with
        netname := find_or_set_net b tk.netname
        start := tr.translate b tk.start
        stop := tr.translate b tk.stop
        isFree := if tk.isVia then false else tk.isFree
        group := some g })) }

/-- `copy_drawings`: duplicate every template drawing, set the
transformed position, rotate in place by the relative angle, move into
the group. -/
noncomputable def copy_drawings (b : Board) (room : PCBRoom)
    (tr : PositionTransform) (g : String) : Board :=
  { b with
    drawings := b.drawings + ↑(room.subboard.drawings.map (fun dw =>
      { dw with
        pos := tr.translate b dw.pos
        angle := dw.angle + tr.orient b 0
        group := some g })) }

/-- `copy_zones`: like drawings; the source repositions with the
move-to-origin-then-move-to-target two-step, whose composition places the
zone at the transformed original position. -/
noncomputable def copy_zones (b : Board) (room : PCBRoom)
    (tr : PositionTransform) (g : String) : Board :=
  { b with
    zones := b.zones + ↑(room.subboard.zones.map (fun z =>
      { z with
        pos := tr.translate b z.pos
        angle := z.angle + tr.orient b 0
        group := some g })) }

/-- `PositionTransform.footprint_text` in the case where both fields
exist: copy the style attributes and the mirrored flag, translate the
position, orient the text angle; the text content stays the target
field. -/
noncomputable def footprint_text_write (tr : PositionTransform) (b : Board)
    (src dst : PCBField) : PCBField :=
  { text := dst.text
    layer := src.layer
    textThickness := src.textThickness
    textWidth := src.textWidth
    textHeight := src.textHeight
    italic := src.italic
    bold := src.bold
    multilineAllowed := src.multilineAllowed
    horizJustify := src.horizJustify
    vertJustify := src.vertJustify
    keepUpright := src.keepUpright
    visible := src.visible
    mirrored := src.mirrored
    pos := tr.translate b src.pos
    angle := tr.orient b src.angle }

/-- The `zip_longest` loop over the graphical items: paired items are
copied, template extras are passed over (no target is created), and
target extras are deleted from the footprint. -/
noncomputable def zipFieldWrite (tr : PositionTransform) (b : Board) :
    List PCBField → List PCBField → List PCBField
  | [], _ => []
  | _ :: _, [] => []
  | s :: ss, d :: ds => footprint_text_write tr b s d :: zipFieldWrite tr b ss ds

/-- `PositionTransform.footprint`: flip if the flipped flags differ, copy
the local properties, then set position and orientation; each write is
visible to the next read (relevant when the written footprint is the
anchor itself). -/
noncomputable def transform_footprint (tr : PositionTransform)
    (fp_t : Footprint) (i : ℕ) (b : Board) : Board :=
  let b1 := updFp b i (fun x =>
    if fp_t.flipped != x.flipped then { x with flipped := !x.flipped } else x)
  let b2 := updFp b1 i (fun x => { x with props := fp_t.props })
  let b3 := updFp b2 i (fun x => { x with pos := tr.translate b2 fp_t.pos })
  updFp b3 i (fun x => { x with orientation := tr.orient b3 fp_t.orientation })

/-- The three `footprint_text` calls of `enforce_position_footprints`:
reference field, value field, then the `zip_longest` loop over the
graphical items. -/
noncomputable def transform_footprint_texts (tr : PositionTransform)
    (fp_t : Footprint) (i : ℕ) (b : Board) : Board :=
  let b5 := updFp b i (fun x =>
    { x with refField := footprint_text_write tr b fp_t.refField x.refField })
  let b6 := updFp b5 i (fun x =>
    { x with valueField := footprint_text_write tr b5 fp_t.valueField x.valueField })
  updFp b6 i (fun x =>
    { x with graphicalItems := zipFieldWrite tr b6 fp_t.graphicalItems x.graphicalItems })

/-- A sheet of the tree as seen by the engine loop: the reconstructed
full-path identifier, human name and human path, the bound room, and the
checked flag. -/
structure FlatSheet where
  identifier : String
  humanName : String
  humanPath : String
  pcb : Option PCBRoom
  checked : Bool

/-- `enforce_position_footprints`: for every template footprint, resolve
the target by path (warn and skip when absent), transform it, fix the
text fields, and force it into the group. -/
noncomputable def enforce_position_footprints (fs : FlatSheet) (room : PCBRoom)
    (tr : PositionTransform) (lookup : String → Option ℕ) (g : String)
    (b : Board) : Board × List ReportedError :=
  room.subboard.footprints.foldl
    (fun acc fp =>
      let fp_path := fs.identifier ++ fp.path
      match lookup fp_path with
      | none =>
        let err : ReportedError :=
          { title := "footprint not found, skipping",
            message := some ("Corresponding to " ++ fp.reference ++
              " for sheet " ++ fs.humanName),
            footprint := some fp,
            pcb := some room,
            level := ErrorLevel.WARNING }
        (acc.1, acc.2 ++ [err])
      | some i =>
        let b1 := transform_footprint tr fp i acc.1
        let b2 := transform_footprint_texts tr fp i b1
        let moved := groupMoveFp b2 i g
        (moved.1, acc.2 ++ (if moved.2 then
          [{ title := "footprint is in the wrong group",
             pcb := some room,
             level := ErrorLevel.ERROR }] else [])))
    (b, [])

/-- The body of the `enforce_position` loop for one sheet: skip unless a
room is bound and the sheet is checked; error out (illegal room, no
anchor, anchor not found on target) without touching the board; otherwise
bind the group, clear stale items, force the anchor into the group,
transform footprints, and regenerate tracks, drawings and zones. -/
noncomputable def processSheet (lookup : String → Option ℕ)
    (st : Board × List ReportedError) (fs : FlatSheet) :
    Board × List ReportedError :=
  match fs.pcb with
  | none => st
  | some room =>
    if fs.checked = false then st
    else if room.is_legal = false then
      (st.1, st.2 ++ [{ title := "sub-PCB cannot be placed", pcb := some room }])
    else
      match room.selected_anchor with
      | none =>
        let err : ReportedError :=
          { title := "sub-PCB has no anchor selected",
            pcb := some room, level := ErrorLevel.ERROR }
        (st.1, st.2 ++ [err])
      | some anchor_subpcb =>
        let anchor_path := fs.identifier ++ anchor_subpcb.path
        match lookup anchor_path with
        | none =>
          let err : ReportedError :=
            { title := "anchor not found on target",
              message := some ("Expected path " ++ anchor_path),
              pcb := some room, level := ErrorLevel.ERROR }
          (st.1, st.2 ++ [err])
        | some aIdx =>
          let group_name := "subpcb_" ++ fs.humanPath
          let b1 := create_or_get st.1 group_name
          let b2 := clear_zones b1 group_name
          let b3 := clear_traces b2 group_name
          let b4 := clear_drawings b3 group_name
          let moved := groupMoveFp b4 aIdx group_name
          let errs1 := st.2 ++ (if moved.2 then
            [{ title := "anchor footprint is in the wrong group",
               message := some ("Expected group " ++ group_name),
               pcb := some room, level := ErrorLevel.ERROR }] else [])
          let tr : PositionTransform := ⟨anchor_subpcb, aIdx⟩
          let fpres := enforce_position_footprints fs room tr lookup group_name moved.1
          let b7 := copy_traces fpres.1 room tr group_name
          let b8 := copy_drawings b7 room tr group_name
          let b9 := copy_zones b8 room tr group_name
          (b9, errs1 ++ fpres.2)

/-- The footprint lookup table `fp_lookup` built once per run: path
string to footprint object; a later footprint with the same path
overwrites an earlier one, as in the Python dict comprehension. -/
def fpFindLast (fps : List Footprint) (p : String) : Option ℕ :=
  fps.enum.foldl (fun acc e => if e.2.path = p then some e.1 else acc) none

/-- Children of a sheet in iteration order: `sorted(children.items())`. -/
def sortedChildren (ch : List (String × SchSheet)) : List (String × SchSheet) :=
  ch.mergeSort (fun a b => a.1 ≤ b.1)

/-- `SchSheet.tree_iter` together with the reconstruction of
`identifier`, `human_name` and `human_path`: pre-order, children in
sorted key order; the parent accumulators are `none` at the root. -/
theorem SchSheet.sizeOf_lt_of_mem_children {p : String × SchSheet} {s : SchSheet}
    (h : p ∈ s.children) : sizeOf p.2 < sizeOf s := by
  cases s with
  | mk sid ch f n pcb ck =>
    simp only [SchSheet.children] at h
    have hlt := List.sizeOf_lt_of_mem h
    rcases p with ⟨k, c⟩
    simp at hlt ⊢
    omega

/-- `SchSheet.identifier`: the root keeps its own (empty) id, a child is
`parent.identifier + "/" + sheetid`. -/
def identOf (pIdent : Option String) (sid : String) : String :=
  match pIdent with
  | none => sid
  | some pid => pid ++ "/" ++ sid

/-- `SchSheet.human_name`: the sheet name if set, else the first eight
characters of the sheet id. -/
def humanNameOf (n : Option String) (sid : String) : String :=
  match n with
  | some nm => nm
  | none => sid.take 8

/-- `SchSheet.human_path`: the root keeps its human name, a child is
`parent.human_path + "/" + human_name`. -/
def humanPathOf (pHuman : Option String) (hname : String) : String :=
  match pHuman with
  | none => hname
  | some ph => ph ++ "/" ++ hname

def flatten (s : SchSheet) (pIdent pHuman : Option String) : List FlatSheet :=
  let ident := identOf pIdent s.sheetid
  let hname := humanNameOf s.name s.sheetid
  let hpath := humanPathOf pHuman hname
  ⟨ident, hname, hpath, s.pcb, s.checked⟩ ::
    ((sortedChildren s.children).attach.map
      (fun c => flatten c.1.2 (some ident) (some hpath))).flatten
termination_by sizeOf s
decreasing_by
  simp_wf
  have hmem : c.1 ∈ s.children := by
    have h2 := c.2
    unfold sortedChildren at h2
    exact (List.mem_mergeSort).mp h2
  exact SchSheet.sizeOf_lt_of_mem_children hmem

/-- `hdata.HierarchicalData`, restricted to what the engine consumes. -/
structure HierarchicalData where
  root_sheet : SchSheet

/-- The full `enforce_position` run: the board threaded through every
sheet of the pre-order walk, plus the `errors` list accumulated by the
function body. -/
noncomputable def enforce_position_run (hd : HierarchicalData) (b : Board) :
    Board × List ReportedError :=
  let lookup := fpFindLast b.footprints
  (flatten hd.root_sheet none none).foldl (processSheet lookup) (b, [])

/-- `enforce_position` as observed by its caller: the mutated board, and
the return value of the Python function, which ends without a `return`
statement and therefore hands back `None` - not the accumulated error
list. -/
noncomputable def enforce_position (hd : HierarchicalData) (b : Board) :
    Board × Option (List ReportedError) :=
  ((enforce_position_run hd b).1, none)

/-- Unfolding lemma for `flatten` without the `attach` used for the
termination argument. -/
theorem flatten_eq (s : SchSheet) (pIdent pHuman : Option String) :
    flatten s pIdent pHuman =
      (let ident := identOf pIdent s.sheetid
      let hname := humanNameOf s.name s.sheetid
      let hpath := humanPathOf pHuman hname
      ⟨ident, hname, hpath, s.pcb, s.checked⟩ ::
        ((sortedChildren s.children).map
          (fun c => flatten c.2 (some ident) (some hpath))).flatten) := by
  rw [flatten]
  congr 1
  rw [← List.attach_map_coe (sortedChildren s.children)
    (fun c => flatten c.2 _ _)]

/-- The empty target board. -/
def boardEmpty : Board :=
  { footprints := [], tracks := 0, drawings := 0, zones := 0,
    nets := [], groups := [] }

/-! ### Claim C3: the diagnostics are not returned

`enforce_position` carefully accumulates `errors: List[ReportedError]`
and threads it through every step of the run, but the function body ends
without a `return` statement: the caller (`hplugin.RunActual`) receives
`None`, never the diagnostic list. -/

/-- A scope tree whose only checked sheet is bound to an illegal room:
the run appends exactly one diagnostic to the internal list. -/
noncomputable def hdIllegal : HierarchicalData :=
  ⟨.mk "" [("s1", .mk "s1" [] (some "sheet.kicad_sch") (some "s1")
    (some roomEmptyPath) true)] none none none false⟩

theorem flatten_hdIllegal :
    flatten hdIllegal.root_sheet none none =
      [⟨"", "", "", none, false⟩,
       ⟨"/s1", "s1", "/s1", some roomEmptyPath, true⟩] := by
  rw [flatten_eq]
  simp only [hdIllegal, SchSheet.sheetid, SchSheet.name, SchSheet.pcb,
    SchSheet.checked, SchSheet.children, sortedChildren,
    List.mergeSort_singleton, List.map_cons, List.map_nil]
  rw [flatten_eq]
  simp [SchSheet.sheetid, SchSheet.name, SchSheet.pcb, SchSheet.checked,
    SchSheet.children, sortedChildren, List.mergeSort_nil,
    identOf, humanNameOf, humanPathOf]
  constructor <;> decide

/-- C3: the run on the illegal-room tree accumulates one diagnostic in
its internal error list and leaves the board unchanged, yet the value
`enforce_position` hands back to its caller is `None`: the complete
diagnostic list is never returned.  (The claim that the caller is always
handed the full list is the spec intent; the missing `return errors` is
the code slip.) -/
theorem enforce_position_returns_none :
    (enforce_position hdIllegal boardEmpty).2 = none ∧
    (enforce_position_run hdIllegal boardEmpty).2 =
      [{ title := "sub-PCB cannot be placed", pcb := some roomEmptyPath }] ∧
    (enforce_position_run hdIllegal boardEmpty).1 = boardEmpty := by
  have hstep1 : processSheet (fpFindLast boardEmpty.footprints) (boardEmpty, [])
      ⟨"", "", "", none, false⟩ = (boardEmpty, []) := rfl
  have hstep2 : processSheet (fpFindLast boardEmpty.footprints) (boardEmpty, [])
      ⟨"/s1", "s1", "/s1", some roomEmptyPath, true⟩ =
      (boardEmpty, [{ title := "sub-PCB cannot be placed", pcb := some roomEmptyPath }]) := by
    simp only [processSheet]
    rw [show roomEmptyPath.is_legal = false from rfl]
    simp
  have h0 : enforce_position_run hdIllegal boardEmpty =
      List.foldl (processSheet (fpFindLast boardEmpty.footprints))
        (boardEmpty, []) (flatten hdIllegal.root_sheet none none) := rfl
  refine ⟨rfl, ?_, ?_⟩ <;>
  · rw [h0, flatten_hdIllegal, List.foldl_cons, hstep1, List.foldl_cons,
      hstep2, List.foldl_nil]

/-! ### Claim C4: a missing anchor target aborts the scope cleanly -/

theorem mem_enumFrom_snd {α : Type} :
    ∀ {l : List α} {n : ℕ} {e : ℕ × α}, e ∈ l.enumFrom n → e.2 ∈ l := by
  intro l
  induction l with
  | nil =>
    intro n e h
    simp [List.enumFrom] at h
  | cons a as ih =>
    intro n e h
    simp only [List.enumFrom, List.mem_cons] at h
    rcases h with h | h
    · rw [h]
      exact List.mem_cons_self _ _
    · exact List.mem_cons_of_mem _ (ih h)

theorem fpFindLast_eq_none {fps : List Footprint} {p : String}
    (h : ∀ fp ∈ fps, fp.path ≠ p) : fpFindLast fps p = none := by
  unfold fpFindLast
  have hgen : ∀ (l : List (ℕ × Footprint)) (acc : Option ℕ),
      (∀ e ∈ l, e.2.path ≠ p) →
      l.foldl (fun acc e => if e.2.path = p then some e.1 else acc) acc = acc := by
    intro l
    induction l with
    | nil =>
      intro acc _
      rfl
    | cons e es ih =>
      intro acc hall
      simp only [List.foldl_cons]
      rw [if_neg (hall e (List.mem_cons_self _ _))]
      exact ih acc (fun x hx => hall x (List.mem_cons_of_mem _ hx))
  apply hgen
  intro e he
  exact h e.2 (mem_enumFrom_snd he)

/-- C4: for every selected sheet whose room is legal and has an anchor
set, if the target board has no footprint at the scope path concatenated
with the anchor template path, the engine appends exactly one Error-level
diagnostic referencing that scope (through its bound room and the
expected path in the message), leaves the board untouched, and performs
none of the remaining synthesis steps for that scope (no group binding,
no clearing, no regeneration). -/
theorem anchor_missing_single_error (b : Board) (errs : List ReportedError)
    (fs : FlatSheet) (room : PCBRoom) (a : Footprint)
    (hpcb : fs.pcb = some room) (hck : fs.checked = true)
    (hleg : room.is_legal = true)
    (hanch : room.selected_anchor = some a)
    (hmiss : ∀ fp ∈ b.footprints, fp.path ≠ fs.identifier ++ a.path) :
    processSheet (fpFindLast b.footprints) (b, errs) fs =
      (b, errs ++
        [{ title := "anchor not found on target",
           message := some ("Expected path " ++ (fs.identifier ++ a.path)),
           level := ErrorLevel.ERROR, footprint := none, sheet := none,
           pcb := some room }]) := by
  unfold processSheet
  rw [hpcb]
  simp only [hck, hleg]
  rw [hanch]
  simp only [Bool.true_eq_false, if_false]
  rw [fpFindLast_eq_none hmiss]

/-- A legal room with a selected anchor, for the C4 witness. -/
noncomputable def roomAnchored : PCBRoom where
  path := "sheet.kicad_pcb"
  subboard :=
    { footprints := [fpU1], tracks := [], drawings := [], zones := [] }
  selected_anchor := some fpU1

/-- Witness for C4: a concrete checked sheet bound to `roomAnchored` over
the empty target board, where the anchor path `/s/u1` resolves to no
target footprint. -/
theorem anchor_missing_single_error_witness :
    processSheet (fpFindLast boardEmpty.footprints) (boardEmpty, [])
      ⟨"/s", "s", "s", some roomAnchored, true⟩ =
      (boardEmpty,
        [{ title := "anchor not found on target",
           message := some ("Expected path " ++ ("/s" ++ fpU1.path)),
           level := ErrorLevel.ERROR, footprint := none, sheet := none,
           pcb := some roomAnchored }]) := by
  have h := anchor_missing_single_error boardEmpty []
    ⟨"/s", "s", "s", some roomAnchored, true⟩ roomAnchored fpU1
    rfl rfl (by rfl) rfl (by intro fp hfp; simp [boardEmpty] at hfp)
  simpa using h

/-! ## Exactness properties of the transform, used for claim C2 -/

theorem translate_eq_core (tr : PositionTransform) (b : Board) (p : VECTOR2I) :
    tr.translate b p =
      translateAtC tr.anchor_template (getFp b tr.anchor_mutate).pos
        (getFp b tr.anchor_mutate).orientation p := rfl

theorem orient_eq_core (tr : PositionTransform) (b : Board) (r : ℝ) :
    tr.orient b r =
      orientAtC tr.anchor_template (getFp b tr.anchor_mutate).orientation r := rfl

/-- Translating the template anchor position gives exactly the target
anchor position, whatever the rotation: the deltas are exactly zero. -/
theorem translateAtC_anchor (t : Footprint) (mpos : VECTOR2I) (mor : ℝ) :
    translateAtC t mpos mor t.pos = mpos := by
  unfold translateAtC translateXC translateYC
  simp only [sub_self, Int.cast_zero, zero_mul, zero_add, zero_sub, neg_zero,
    pyInt_intCast]

/-- Orienting the template anchor orientation gives exactly the target
anchor orientation. -/
theorem orientAtC_anchor (t : Footprint) (mor : ℝ) :
    orientAtC t mor t.orientation = mor := by
  unfold orientAtC
  ring

/-- With both orientations zero the transform is an exact integer
translation. -/
theorem translateAtC_zero (t : Footprint) (mpos : VECTOR2I) (p : VECTOR2I)
    (ht : t.orientation = 0) :
    translateAtC t mpos 0 p =
      ⟨p.x - t.pos.x + mpos.x, p.y - t.pos.y + mpos.y⟩ := by
  unfold translateAtC translateXC translateYC
  rw [ht, sub_zero, radians_zero]
  simp only [Real.sin_zero, Real.cos_zero, mul_zero, mul_one, zero_add, sub_zero]
  rw [← Int.cast_add, ← Int.cast_add, pyInt_intCast, pyInt_intCast]

theorem orientAtC_zero (t : Footprint) (mor r : ℝ) (ht : t.orientation = 0) :
    orientAtC t mor r = r + mor := by
  unfold orientAtC
  rw [ht]
  ring

/-! ### Claim C2: the counterexample

Two selected sheets in an ancestor/descendant relation can resolve a
common target footprint: sheet `/s1` uses anchor template path `/s2/f`
and sheet `/s1/s2` has a template footprint `/f`, and both resolve the
target footprint at path `/s1/s2/f`.  The descendant sheet moves the
ancestor sheet anchor during the first run, so the second run places the
ancestor sheet footprints with a different transform: the board contents
after the two runs differ, falsifying idempotence for arbitrary trees. -/

/-- A text field with default style, for the concrete boards below. -/
noncomputable def fld (p : VECTOR2I) : PCBField :=
  ⟨"", 0, 0, 0, 0, false, false, false, 0, 0, false, true, false, p, 0⟩

/-- Default local properties. -/
def props0 : FPProps := ⟨0, 0, 0, 0, 0⟩

/-- A canonical unrotated, unflipped footprint: path, reference,
position, reference-field position, value-field position, group. -/
noncomputable def mkFp (path ref : String) (pos rf vf : VECTOR2I)
    (grp : Option String) : Footprint :=
  ⟨path, ref, pos, 0, false, 0, props0, fld rf, fld vf, [], grp⟩

theorem mkFp_path (p r : String) (pos rf vf : VECTOR2I) (g : Option String) :
    (mkFp p r pos rf vf g).path = p := rfl

theorem mkFp_reference (p r : String) (pos rf vf : VECTOR2I) (g : Option String) :
    (mkFp p r pos rf vf g).reference = r := rfl

theorem mkFp_pos (p r : String) (pos rf vf : VECTOR2I) (g : Option String) :
    (mkFp p r pos rf vf g).pos = pos := rfl

theorem mkFp_orientation (p r : String) (pos rf vf : VECTOR2I) (g : Option String) :
    (mkFp p r pos rf vf g).orientation = 0 := rfl

theorem mkFp_flipped (p r : String) (pos rf vf : VECTOR2I) (g : Option String) :
    (mkFp p r pos rf vf g).flipped = false := rfl

theorem mkFp_props (p r : String) (pos rf vf : VECTOR2I) (g : Option String) :
    (mkFp p r pos rf vf g).props = props0 := rfl

theorem mkFp_refField (p r : String) (pos rf vf : VECTOR2I) (g : Option String) :
    (mkFp p r pos rf vf g).refField = fld rf := rfl

theorem mkFp_valueField (p r : String) (pos rf vf : VECTOR2I) (g : Option String) :
    (mkFp p r pos rf vf g).valueField = fld vf := rfl

theorem mkFp_graphicalItems (p r : String) (pos rf vf : VECTOR2I) (g : Option String) :
    (mkFp p r pos rf vf g).graphicalItems = [] := rfl

theorem mkFp_group (p r : String) (pos rf vf : VECTOR2I) (g : Option String) :
    (mkFp p r pos rf vf g).group = g := rfl

theorem mkFp_fold (p r : String) (pos rf vf : VECTOR2I) (g : Option String) :
    Footprint.mk p r pos 0 false 0 props0 (fld rf) (fld vf) [] g =
      mkFp p r pos rf vf g := rfl

theorem fld_fold (p : VECTOR2I) :
    PCBField.mk "" 0 0 0 0 false false false 0 0 false true false p 0 =
      fld p := rfl

theorem fld_angle (p : VECTOR2I) : (fld p).angle = 0 := rfl

theorem fld_pos (p : VECTOR2I) : (fld p).pos = p := rfl

theorem fld_text (p : VECTOR2I) : (fld p).text = "" := rfl

/-- Writing one default-style field over another: translate the source
position; the written angle is `orient(0)`, which collapses to zero when
both anchors are unrotated. -/
theorem footprint_text_write_fld (tr : PositionTransform) (b : Board)
    (s d : VECTOR2I) (h : tr.orient b 0 = 0) :
    footprint_text_write tr b (fld s) (fld d) = fld (tr.translate b s) := by
  unfold footprint_text_write fld
  rw [show (PCBField.mk "" 0 0 0 0 false false false 0 0 false true false s 0).angle
    = 0 from rfl] at *
  rw [h]

noncomputable def fpAanchor : Footprint :=
  mkFp "/s2/f" "A1" ⟨0, 0⟩ ⟨0, 0⟩ ⟨0, 0⟩ none

noncomputable def fpAh : Footprint :=
  mkFp "/h" "A2" ⟨10, 0⟩ ⟨0, 0⟩ ⟨0, 0⟩ none

noncomputable def fpBanchor : Footprint :=
  mkFp "/g" "B1" ⟨0, 0⟩ ⟨0, 0⟩ ⟨0, 0⟩ none

noncomputable def fpBf : Footprint :=
  mkFp "/f" "B2" ⟨100, 0⟩ ⟨0, 0⟩ ⟨0, 0⟩ none

noncomputable def roomA : PCBRoom :=
  ⟨"a.kicad_pcb", ⟨[fpAanchor, fpAh], [], [], []⟩, some fpAanchor⟩

noncomputable def roomB : PCBRoom :=
  ⟨"b.kicad_pcb", ⟨[fpBanchor, fpBf], [], [], []⟩, some fpBanchor⟩

noncomputable def boardOverlap : Board :=
  ⟨[mkFp "/s1/s2/f" "Q" ⟨0, 0⟩ ⟨0, 0⟩ ⟨0, 0⟩ none,
    mkFp "/s1/s2/g" "R" ⟨0, 0⟩ ⟨0, 0⟩ ⟨0, 0⟩ none,
    mkFp "/s1/h" "H" ⟨0, 0⟩ ⟨0, 0⟩ ⟨0, 0⟩ none],
   0, 0, 0, [], []⟩

noncomputable def hdOverlap : HierarchicalData :=
  ⟨.mk ""
    [("s1", .mk "s1"
      [("s2", .mk "s2" [] (some "b.kicad_sch") (some "s2") (some roomB) true)]
      (some "a.kicad_sch") (some "s1") (some roomA) true)]
    none none none false⟩

theorem flatten_hdOverlap :
    flatten hdOverlap.root_sheet none none =
      [⟨"", "", "", none, false⟩,
       ⟨"/s1", "s1", "/s1", some roomA, true⟩,
       ⟨"/s1/s2", "s2", "/s1/s2", some roomB, true⟩] := by
  rw [flatten_eq]
  simp only [hdOverlap, SchSheet.sheetid, SchSheet.name, SchSheet.pcb,
    SchSheet.checked, SchSheet.children, sortedChildren,
    List.mergeSort_singleton, List.map_cons, List.map_nil]
  rw [flatten_eq]
  simp only [SchSheet.sheetid, SchSheet.name, SchSheet.pcb,
    SchSheet.checked, SchSheet.children, sortedChildren,
    List.mergeSort_singleton, List.map_cons, List.map_nil]
  rw [flatten_eq]
  simp [SchSheet.sheetid, SchSheet.name, SchSheet.pcb, SchSheet.checked,
    SchSheet.children, sortedChildren, List.mergeSort_nil,
    identOf, humanNameOf, humanPathOf]
  decide


/-! ## Canonical form of a single footprint write (used for claim C2)

`enforce_position_footprints` mutates one target footprint through seven
consecutive in-place writes (flip, properties, position, orientation,
reference field, value field, graphical items) followed by the group
move.  The lemmas below collapse the seven writes into one functional
update `fpWrite` of the footprint list, parametrised by the pose of the
target anchor at the start of the write. -/

/-- Replace the footprint object at index `i`. -/
noncomputable def setFp (b : Board) (i : ℕ) (v : Footprint) : Board :=
  { b with footprints := b.footprints.set i v }

theorem updFp_eq (b : Board) (i : ℕ) (f : Footprint → Footprint) :
    updFp b i f = setFp b i (f (getFp b i)) := rfl

theorem getFp_set_self (b : Board) (i : ℕ) (v : Footprint)
    (h : i < b.footprints.length) : getFp (setFp b i v) i = v := by
  simp [getFp, setFp, List.getD, List.getElem?_set_self', h]

theorem getFp_set_ne (b : Board) (i j : ℕ) (v : Footprint) (h : j ≠ i) :
    getFp (setFp b i v) j = getFp b j := by
  simp [getFp, setFp, List.getD, List.getElem?_set_ne (Ne.symm h)]

theorem setFp_setFp (b : Board) (i : ℕ) (v w : Footprint) :
    setFp (setFp b i v) i w = setFp b i w := by
  unfold setFp
  rw [List.set_set]

theorem setFp_self (b : Board) (i : ℕ) (h : i < b.footprints.length) :
    setFp b i (getFp b i) = b := by
  unfold setFp
  have hl : b.footprints.set i (getFp b i) = b.footprints := by
    apply List.ext_getElem?
    intro j
    by_cases hj : j = i
    · subst hj
      rw [List.getElem?_set_self']
      unfold getFp
      rw [List.getD_eq_getElem?_getD, List.getElem?_eq_getElem h]
      rfl
    · exact List.getElem?_set_ne (fun he => hj he.symm)
  rw [hl]

/-- The style-copying field write as a function of the template anchor
and the pose of the target anchor. -/
noncomputable def fieldW (tA : Footprint) (mpos : VECTOR2I) (mor : ℝ)
    (src dst : PCBField) : PCBField :=
  { text := dst.text
    layer := src.layer
    textThickness := src.textThickness
    textWidth := src.textWidth
    textHeight := src.textHeight
    italic := src.italic
    bold := src.bold
    multilineAllowed := src.multilineAllowed
    horizJustify := src.horizJustify
    vertJustify := src.vertJustify
    keepUpright := src.keepUpright
    visible := src.visible
    mirrored := src.mirrored
    pos := translateAtC tA mpos mor src.pos
    angle := orientAtC tA mor src.angle }

theorem footprint_text_write_eq (tr : PositionTransform) (b : Board)
    (src dst : PCBField) :
    footprint_text_write tr b src dst =
      fieldW tr.anchor_template (getFp b tr.anchor_mutate).pos
        (getFp b tr.anchor_mutate).orientation src dst := rfl

/-- The `zip_longest` loop as a function of the template anchor and the
pose of the target anchor. -/
noncomputable def zipW (tA : Footprint) (mpos : VECTOR2I) (mor : ℝ) :
    List PCBField → List PCBField → List PCBField
  | [], _ => []
  | _ :: _, [] => []
  | s :: ss, d :: ds => fieldW tA mpos mor s d :: zipW tA mpos mor ss ds

theorem zipFieldWrite_eq (tr : PositionTransform) (b : Board) :
    ∀ ss ds : List PCBField,
      zipFieldWrite tr b ss ds =
        zipW tr.anchor_template (getFp b tr.anchor_mutate).pos
          (getFp b tr.anchor_mutate).orientation ss ds := by
  intro ss
  induction ss with
  | nil => intro ds; rfl
  | cons s ss ih =>
    intro ds
    cases ds with
    | nil => rfl
    | cons d ds =>
      show footprint_text_write tr b s d :: zipFieldWrite tr b ss ds = _
      rw [ih, footprint_text_write_eq]
      rfl

/-- The four writes of `PositionTransform.footprint` on one target
footprint. -/
noncomputable def fpMoveW (tA : Footprint) (mpos : VECTOR2I) (mor : ℝ)
    (tf x : Footprint) : Footprint :=
  { x with
    flipped := tf.flipped
    props := tf.props
    pos := translateAtC tA mpos mor tf.pos
    orientation := orientAtC tA mor tf.orientation }

/-- The three text-field writes of `enforce_position_footprints` on one
target footprint. -/
noncomputable def fpTextW (tA : Footprint) (mpos : VECTOR2I) (mor : ℝ)
    (tf x : Footprint) : Footprint :=
  { x with
    refField := fieldW tA mpos mor tf.refField x.refField
    valueField := fieldW tA mpos mor tf.valueField x.valueField
    graphicalItems := zipW tA mpos mor tf.graphicalItems x.graphicalItems }

/-- The group move on one target footprint. -/
noncomputable def fpGroupW (g : String) (x : Footprint) : Footprint :=
  { x with group := some g }

/-- The accumulated result of the seven footprint writes plus the group
move, with template footprint `tf`, template anchor `tA`, target anchor
pose `(mpos, mor)` and group `g`. -/
noncomputable def fpWrite (tA : Footprint) (mpos : VECTOR2I) (mor : ℝ)
    (tf : Footprint) (g : String) (x : Footprint) : Footprint :=
  { path := x.path
    reference := x.reference
    pos := translateAtC tA mpos mor tf.pos
    orientation := orientAtC tA mor tf.orientation
    flipped := tf.flipped
    area := x.area
    props := tf.props
    refField := fieldW tA mpos mor tf.refField x.refField
    valueField := fieldW tA mpos mor tf.valueField x.valueField
    graphicalItems := zipW tA mpos mor tf.graphicalItems x.graphicalItems
    group := some g }

theorem fpWrite_compose (tA : Footprint) (mpos : VECTOR2I) (mor : ℝ)
    (tf : Footprint) (g : String) (x : Footprint) :
    fpGroupW g (fpTextW tA mpos mor tf (fpMoveW tA mpos mor tf x)) =
      fpWrite tA mpos mor tf g x := rfl

/-- The `moved` flag returned by the group move. -/
def movedFlag (og : Option String) (g : String) : Bool :=
  match og with
  | some g2 => if g2 ≠ g then true else false
  | none => false

theorem movedFlag_some (g2 g : String) :
    movedFlag (some g2) g = if g2 ≠ g then true else false := rfl

theorem movedFlag_none (g : String) : movedFlag none g = false := rfl

/-- The conditional flip write always lands on the template flip
state. -/
theorem flip_write (tf x : Footprint) :
    (if tf.flipped != x.flipped then { x with flipped := !x.flipped } else x) =
      { x with flipped := tf.flipped } := by
  rcases x with ⟨p, r, pos, o, fl, ar, pr, rf, vf, gi, gp⟩
  cases htf : tf.flipped <;> cases fl <;> simp [htf]

theorem transform_footprint_canonical (tr : PositionTransform) (tf : Footprint)
    (i : ℕ) (b : Board) (hlen : i < b.footprints.length) :
    transform_footprint tr tf i b =
      setFp b i (fpMoveW tr.anchor_template (getFp b tr.anchor_mutate).pos
        (getFp b tr.anchor_mutate).orientation tf (getFp b i)) := by
  have gss : ∀ v : Footprint, getFp (setFp b i v) i = v :=
    fun v => getFp_set_self b i v hlen
  have sss : ∀ v w : Footprint, setFp (setFp b i v) i w = setFp b i w :=
    fun v w => setFp_setFp b i v w
  by_cases ham : tr.anchor_mutate = i
  · subst ham
    simp only [transform_footprint, updFp_eq, flip_write, translate_eq_core,
      orient_eq_core, gss, sss]
    rfl
  · have gsn : ∀ v : Footprint,
        getFp (setFp b i v) tr.anchor_mutate = getFp b tr.anchor_mutate :=
      fun v => getFp_set_ne b i tr.anchor_mutate v ham
    simp only [transform_footprint, updFp_eq, flip_write, translate_eq_core,
      orient_eq_core, gss, sss, gsn]
    rfl

theorem transform_footprint_texts_canonical (tr : PositionTransform)
    (tf : Footprint) (i : ℕ) (b : Board) (hlen : i < b.footprints.length) :
    transform_footprint_texts tr tf i b =
      setFp b i (fpTextW tr.anchor_template (getFp b tr.anchor_mutate).pos
        (getFp b tr.anchor_mutate).orientation tf (getFp b i)) := by
  have gss : ∀ v : Footprint, getFp (setFp b i v) i = v :=
    fun v => getFp_set_self b i v hlen
  have sss : ∀ v w : Footprint, setFp (setFp b i v) i w = setFp b i w :=
    fun v w => setFp_setFp b i v w
  by_cases ham : tr.anchor_mutate = i
  · subst ham
    simp only [transform_footprint_texts, updFp_eq, footprint_text_write_eq,
      zipFieldWrite_eq, gss, sss]
    rfl
  · have gsn : ∀ v : Footprint,
        getFp (setFp b i v) tr.anchor_mutate = getFp b tr.anchor_mutate :=
      fun v => getFp_set_ne b i tr.anchor_mutate v ham
    simp only [transform_footprint_texts, updFp_eq, footprint_text_write_eq,
      zipFieldWrite_eq, gss, sss, gsn]
    rfl

theorem groupMoveFp_canonical (b : Board) (i : ℕ) (g : String)
    (hlen : i < b.footprints.length) :
    groupMoveFp b i g =
      (setFp b i (fpGroupW g (getFp b i)), movedFlag (getFp b i).group g) := by
  unfold groupMoveFp
  split
  next g2 heq =>
    rw [heq, movedFlag_some]
    by_cases hgg : g2 = g
    · rw [if_neg (by simp [hgg]), if_neg (by simp [hgg])]
      have hv : fpGroupW g (getFp b i) = getFp b i := by
        rw [hgg] at heq
        rw [fpGroupW, ← heq]
      rw [hv, setFp_self b i hlen]
    · rw [if_pos hgg, if_pos hgg]
      rfl
  next heq =>
    rw [heq, movedFlag_none]
    rfl

theorem fp_process_canonical (tr : PositionTransform) (tf : Footprint) (i : ℕ)
    (g : String) (b : Board) (hlen : i < b.footprints.length)
    (hstable : tr.anchor_mutate = i →
      translateAtC tr.anchor_template (getFp b i).pos (getFp b i).orientation
          tf.pos = (getFp b i).pos ∧
        orientAtC tr.anchor_template (getFp b i).orientation tf.orientation
          = (getFp b i).orientation) :
    groupMoveFp (transform_footprint_texts tr tf i (transform_footprint tr tf i b))
        i g =
      (setFp b i (fpWrite tr.anchor_template (getFp b tr.anchor_mutate).pos
          (getFp b tr.anchor_mutate).orientation tf g (getFp b i)),
        movedFlag (getFp b i).group g) := by
  have gss : ∀ v : Footprint, getFp (setFp b i v) i = v :=
    fun v => getFp_set_self b i v hlen
  have sss : ∀ v w : Footprint, setFp (setFp b i v) i w = setFp b i w :=
    fun v w => setFp_setFp b i v w
  have hlen1 : ∀ v : Footprint, i < (setFp b i v).footprints.length := by
    intro v
    simpa [setFp] using hlen
  rw [transform_footprint_canonical tr tf i b hlen]
  rw [transform_footprint_texts_canonical tr tf i _ (hlen1 _)]
  rw [groupMoveFp_canonical _ i g (by rw [sss]; exact hlen1 _)]
  rw [sss, gss, gss]
  by_cases ham : tr.anchor_mutate = i
  · have hs := hstable ham
    rw [ham, gss]
    rw [show (fpMoveW tr.anchor_template (getFp b i).pos (getFp b i).orientation
        tf (getFp b i)).pos = translateAtC tr.anchor_template (getFp b i).pos
        (getFp b i).orientation tf.pos from rfl]
    rw [show (fpMoveW tr.anchor_template (getFp b i).pos (getFp b i).orientation
        tf (getFp b i)).orientation = orientAtC tr.anchor_template
        (getFp b i).orientation tf.orientation from rfl]
    rw [hs.1, hs.2, sss]
    rfl
  · have gsn : ∀ v : Footprint,
        getFp (setFp b i v) tr.anchor_mutate = getFp b tr.anchor_mutate :=
      fun v => getFp_set_ne b i tr.anchor_mutate v ham
    rw [gsn, sss]
    rfl

/-! ## Evaluation of the engine on concrete boards (claim C2) -/

/-- The active branch of the per-sheet loop: a checked sheet bound to a
legal room with a selected anchor that resolves on the target. -/
theorem processSheet_active (lookup : String → Option ℕ)
    (st : Board × List ReportedError) (fs : FlatSheet) (room : PCBRoom)
    (a : Footprint) (aIdx : ℕ)
    (hpcb : fs.pcb = some room) (hck : fs.checked = true)
    (hleg : room.is_legal = true)
    (hanch : room.selected_anchor = some a)
    (hlook : lookup (fs.identifier ++ a.path) = some aIdx) :
    processSheet lookup st fs =
      (let g := "subpcb_" ++ fs.humanPath
       let b4 := clear_drawings (clear_traces (clear_zones
         (create_or_get st.1 g) g) g) g
       let moved := groupMoveFp b4 aIdx g
       let tr : PositionTransform := ⟨a, aIdx⟩
       let fpres := enforce_position_footprints fs room tr lookup g moved.1
       (copy_zones (copy_drawings (copy_traces fpres.1 room tr g) room tr g)
           room tr g,
        st.2 ++ (if moved.2 then
          [⟨"anchor footprint is in the wrong group",
            some ("Expected group " ++ g), ErrorLevel.ERROR, none, none,
            some room⟩] else []) ++ fpres.2)) := by
  unfold processSheet
  rw [hpcb]
  simp only [hck, hleg]
  rw [hanch]
  simp only [Bool.true_eq_false, if_false]
  rw [hlook]

/-- The exact integer translation performed by the transform when both
anchors are unrotated. -/
def vShift (tA : Footprint) (mpos : VECTOR2I) (v : VECTOR2I) : VECTOR2I :=
  ⟨v.x - tA.pos.x + mpos.x, v.y - tA.pos.y + mpos.y⟩

theorem translateAtC_zero_v (tA : Footprint) (htA : tA.orientation = 0)
    (mpos v : VECTOR2I) : translateAtC tA mpos 0 v = vShift tA mpos v := by
  rw [translateAtC_zero _ _ _ htA]
  rfl

theorem orientAtC_zero_zero (tA : Footprint) (htA : tA.orientation = 0) :
    orientAtC tA 0 0 = 0 := by
  rw [orientAtC_zero _ _ _ htA]
  norm_num

theorem fieldW_fld (tA : Footprint) (htA : tA.orientation = 0)
    (mpos s d : VECTOR2I) :
    fieldW tA mpos 0 (fld s) (fld d) = fld (vShift tA mpos s) := by
  simp only [fieldW, fld]
  rw [translateAtC_zero_v tA htA, orientAtC_zero_zero tA htA]

/-- A write of one unrotated canonical footprint over another, with an
unrotated anchor pair: an exact integer translation of the position and
of the two field positions. -/
theorem fpWrite_mkFp (tA : Footprint) (htA : tA.orientation = 0)
    (mpos : VECTOR2I) (p r : String) (pos rf vf : VECTOR2I)
    (gg : Option String) (p2 r2 : String) (pos2 rf2 vf2 : VECTOR2I)
    (gg2 : Option String) (g : String) :
    fpWrite tA mpos 0 (mkFp p r pos rf vf gg) g (mkFp p2 r2 pos2 rf2 vf2 gg2) =
      mkFp p2 r2 (vShift tA mpos pos) (vShift tA mpos rf) (vShift tA mpos vf)
        (some g) := by
  simp only [fpWrite, mkFp]
  rw [fieldW_fld tA htA, fieldW_fld tA htA]
  rw [translateAtC_zero_v tA htA, orientAtC_zero_zero tA htA]
  rfl

/-- The loop body of `enforce_position_footprints`, named. -/
noncomputable def epfStep (fs : FlatSheet) (room : PCBRoom)
    (tr : PositionTransform) (lookup : String → Option ℕ) (g : String)
    (acc : Board × List ReportedError) (fp : Footprint) :
    Board × List ReportedError :=
  let fp_path := fs.identifier ++ fp.path
  match lookup fp_path with
  | none =>
    let err : ReportedError :=
      { title := "footprint not found, skipping",
        message := some ("Corresponding to " ++ fp.reference ++
          " for sheet " ++ fs.humanName),
        footprint := some fp,
        pcb := some room,
        level := ErrorLevel.WARNING }
    (acc.1, acc.2 ++ [err])
  | some i =>
    let b1 := transform_footprint tr fp i acc.1
    let b2 := transform_footprint_texts tr fp i b1
    let moved := groupMoveFp b2 i g
    (moved.1, acc.2 ++ (if moved.2 then
      [{ title := "footprint is in the wrong group",
         pcb := some room,
         level := ErrorLevel.ERROR }] else []))

theorem enforce_position_footprints_eq (fs : FlatSheet) (room : PCBRoom)
    (tr : PositionTransform) (lookup : String → Option ℕ) (g : String)
    (b : Board) :
    enforce_position_footprints fs room tr lookup g b =
      room.subboard.footprints.foldl (epfStep fs room tr lookup g) (b, []) := rfl

/-- One loop step whose template footprint resolves on the target:
the canonical seven-write form. -/
theorem epfStep_write (fs : FlatSheet) (room : PCBRoom)
    (tr : PositionTransform) (lookup : String → Option ℕ) (g : String)
    (acc : Board × List ReportedError) (tf : Footprint) (i : ℕ)
    (hlk : lookup (fs.identifier ++ tf.path) = some i)
    (hlen : i < acc.1.footprints.length)
    (hstable : tr.anchor_mutate = i →
      translateAtC tr.anchor_template (getFp acc.1 i).pos
          (getFp acc.1 i).orientation tf.pos = (getFp acc.1 i).pos ∧
        orientAtC tr.anchor_template (getFp acc.1 i).orientation tf.orientation
          = (getFp acc.1 i).orientation) :
    epfStep fs room tr lookup g acc tf =
      (setFp acc.1 i (fpWrite tr.anchor_template
          (getFp acc.1 tr.anchor_mutate).pos
          (getFp acc.1 tr.anchor_mutate).orientation tf g (getFp acc.1 i)),
        acc.2 ++ (if movedFlag (getFp acc.1 i).group g then
          [⟨"footprint is in the wrong group", none, ErrorLevel.ERROR, none,
            none, some room⟩] else [])) := by
  simp only [epfStep]
  rw [hlk]
  show ((groupMoveFp (transform_footprint_texts tr tf i
        (transform_footprint tr tf i acc.1)) i g).1,
      acc.2 ++ (if (groupMoveFp (transform_footprint_texts tr tf i
        (transform_footprint tr tf i acc.1)) i g).2 then
        [⟨"footprint is in the wrong group", none, ErrorLevel.ERROR, none,
          none, some room⟩] else [])) = _
  rw [fp_process_canonical tr tf i g acc.1 hlen hstable]

/-- One loop step whose template footprint does not resolve: warn and
skip. -/
theorem epfStep_skip (fs : FlatSheet) (room : PCBRoom)
    (tr : PositionTransform) (lookup : String → Option ℕ) (g : String)
    (acc : Board × List ReportedError) (tf : Footprint)
    (hlk : lookup (fs.identifier ++ tf.path) = none) :
    epfStep fs room tr lookup g acc tf =
      (acc.1, acc.2 ++
        [⟨"footprint not found, skipping",
          some ("Corresponding to " ++ tf.reference ++ " for sheet " ++
            fs.humanName), ErrorLevel.WARNING, some tf, none, some room⟩]) := by
  simp only [epfStep]
  rw [hlk]

/-! ### The two runs on the overlapping-scope board, step by step -/

/-- Discharge the anchor-stability side condition when the template
footprint written onto the anchor has the anchor template pose. -/
theorem hstable_of_anchor (tr : PositionTransform) (b : Board) (i : ℕ)
    (tf : Footprint) (hpos : tf.pos = tr.anchor_template.pos)
    (hor : tf.orientation = tr.anchor_template.orientation) :
    tr.anchor_mutate = i →
      translateAtC tr.anchor_template (getFp b i).pos (getFp b i).orientation
          tf.pos = (getFp b i).pos ∧
        orientAtC tr.anchor_template (getFp b i).orientation tf.orientation
          = (getFp b i).orientation := by
  intro _
  rw [hpos, hor]
  exact ⟨translateAtC_anchor _ _ _, orientAtC_anchor _ _⟩

/-- Discharge the anchor-stability side condition when the written index
is not the anchor. -/
theorem hstable_of_ne (tr : PositionTransform) (b : Board) (i : ℕ)
    (tf : Footprint) (h : ¬ tr.anchor_mutate = i) :
    tr.anchor_mutate = i →
      translateAtC tr.anchor_template (getFp b i).pos (getFp b i).orientation
          tf.pos = (getFp b i).pos ∧
        orientAtC tr.anchor_template (getFp b i).orientation tf.orientation
          = (getFp b i).orientation :=
  fun he => absurd he h

/-- `boardOverlap` after sheet `/s1` has bound its group and moved its
anchor (footprint 0) into it. -/
noncomputable def bAM : Board :=
  ⟨[mkFp "/s1/s2/f" "Q" ⟨0, 0⟩ ⟨0, 0⟩ ⟨0, 0⟩ (some "subpcb_/s1"),
    mkFp "/s1/s2/g" "R" ⟨0, 0⟩ ⟨0, 0⟩ ⟨0, 0⟩ none,
    mkFp "/s1/h" "H" ⟨0, 0⟩ ⟨0, 0⟩ ⟨0, 0⟩ none], 0, 0, 0, [], ["subpcb_/s1"]⟩

/-- The board after sheet `/s1` of the first run. -/
noncomputable def bAF : Board :=
  ⟨[mkFp "/s1/s2/f" "Q" ⟨0, 0⟩ ⟨0, 0⟩ ⟨0, 0⟩ (some "subpcb_/s1"),
    mkFp "/s1/s2/g" "R" ⟨0, 0⟩ ⟨0, 0⟩ ⟨0, 0⟩ none,
    mkFp "/s1/h" "H" ⟨10, 0⟩ ⟨0, 0⟩ ⟨0, 0⟩ (some "subpcb_/s1")],
   0, 0, 0, [], ["subpcb_/s1"]⟩

/-- `bAF` after sheet `/s1/s2` has bound its group and moved its anchor
(footprint 1) into it. -/
noncomputable def bBM : Board :=
  ⟨[mkFp "/s1/s2/f" "Q" ⟨0, 0⟩ ⟨0, 0⟩ ⟨0, 0⟩ (some "subpcb_/s1"),
    mkFp "/s1/s2/g" "R" ⟨0, 0⟩ ⟨0, 0⟩ ⟨0, 0⟩ (some "subpcb_/s1/s2"),
    mkFp "/s1/h" "H" ⟨10, 0⟩ ⟨0, 0⟩ ⟨0, 0⟩ (some "subpcb_/s1")],
   0, 0, 0, [], ["subpcb_/s1", "subpcb_/s1/s2"]⟩

/-- The board after the first full run: the descendant sheet has pulled
the shared footprint `Q` to `(100, 0)` and into its own group. -/
noncomputable def boardRun1 : Board :=
  ⟨[mkFp "/s1/s2/f" "Q" ⟨100, 0⟩ ⟨0, 0⟩ ⟨0, 0⟩ (some "subpcb_/s1/s2"),
    mkFp "/s1/s2/g" "R" ⟨0, 0⟩ ⟨0, 0⟩ ⟨0, 0⟩ (some "subpcb_/s1/s2"),
    mkFp "/s1/h" "H" ⟨10, 0⟩ ⟨0, 0⟩ ⟨0, 0⟩ (some "subpcb_/s1")],
   0, 0, 0, [], ["subpcb_/s1", "subpcb_/s1/s2"]⟩

/-- `boardRun1` after sheet `/s1` of the second run has reclaimed its
anchor `Q` into its group. -/
noncomputable def bAM2 : Board :=
  ⟨[mkFp "/s1/s2/f" "Q" ⟨100, 0⟩ ⟨0, 0⟩ ⟨0, 0⟩ (some "subpcb_/s1"),
    mkFp "/s1/s2/g" "R" ⟨0, 0⟩ ⟨0, 0⟩ ⟨0, 0⟩ (some "subpcb_/s1/s2"),
    mkFp "/s1/h" "H" ⟨10, 0⟩ ⟨0, 0⟩ ⟨0, 0⟩ (some "subpcb_/s1")],
   0, 0, 0, [], ["subpcb_/s1", "subpcb_/s1/s2"]⟩

/-- `bAM2` after the self-write of the sheet-`/s1` anchor: the anchor
pose is kept, but its text fields move to the anchor position. -/
noncomputable def bAF2a : Board :=
  ⟨[mkFp "/s1/s2/f" "Q" ⟨100, 0⟩ ⟨100, 0⟩ ⟨100, 0⟩ (some "subpcb_/s1"),
    mkFp "/s1/s2/g" "R" ⟨0, 0⟩ ⟨0, 0⟩ ⟨0, 0⟩ (some "subpcb_/s1/s2"),
    mkFp "/s1/h" "H" ⟨10, 0⟩ ⟨0, 0⟩ ⟨0, 0⟩ (some "subpcb_/s1")],
   0, 0, 0, [], ["subpcb_/s1", "subpcb_/s1/s2"]⟩

/-- The board after sheet `/s1` of the second run: `H` is now placed
relative to the moved anchor, at `(110, 0)`. -/
noncomputable def bAF2 : Board :=
  ⟨[mkFp "/s1/s2/f" "Q" ⟨100, 0⟩ ⟨100, 0⟩ ⟨100, 0⟩ (some "subpcb_/s1"),
    mkFp "/s1/s2/g" "R" ⟨0, 0⟩ ⟨0, 0⟩ ⟨0, 0⟩ (some "subpcb_/s1/s2"),
    mkFp "/s1/h" "H" ⟨110, 0⟩ ⟨100, 0⟩ ⟨100, 0⟩ (some "subpcb_/s1")],
   0, 0, 0, [], ["subpcb_/s1", "subpcb_/s1/s2"]⟩

/-- The board after the second full run: footprint `H` sits at
`(110, 0)` instead of `(10, 0)`. -/
noncomputable def boardRun2 : Board :=
  ⟨[mkFp "/s1/s2/f" "Q" ⟨100, 0⟩ ⟨0, 0⟩ ⟨0, 0⟩ (some "subpcb_/s1/s2"),
    mkFp "/s1/s2/g" "R" ⟨0, 0⟩ ⟨0, 0⟩ ⟨0, 0⟩ (some "subpcb_/s1/s2"),
    mkFp "/s1/h" "H" ⟨110, 0⟩ ⟨100, 0⟩ ⟨100, 0⟩ (some "subpcb_/s1")],
   0, 0, 0, [], ["subpcb_/s1", "subpcb_/s1/s2"]⟩

theorem stepA_run1 (errs : List ReportedError) :
    processSheet (fpFindLast boardOverlap.footprints) (boardOverlap, errs)
      ⟨"/s1", "s1", "/s1", some roomA, true⟩ = (bAF, errs) := by
  have hst1 := hstable_of_anchor ⟨fpAanchor, 0⟩
    (bAM, ([] : List ReportedError)).1 0 fpAanchor rfl rfl
  have s1 : epfStep ⟨"/s1", "s1", "/s1", some roomA, true⟩ roomA ⟨fpAanchor, 0⟩
      (fpFindLast boardOverlap.footprints) "subpcb_/s1" (bAM, []) fpAanchor =
      (bAM, []) := by
    rw [epfStep_write _ _ _ _ _ _ fpAanchor 0 (by decide) (by decide) hst1]
    simp only []
    rw [show getFp bAM 0 =
      mkFp "/s1/s2/f" "Q" ⟨0, 0⟩ ⟨0, 0⟩ ⟨0, 0⟩ (some "subpcb_/s1") from rfl]
    rw [show fpAanchor = mkFp "/s2/f" "A1" ⟨0, 0⟩ ⟨0, 0⟩ ⟨0, 0⟩ none from rfl]
    rw [mkFp_pos, mkFp_orientation, mkFp_group]
    rw [fpWrite_mkFp _ (mkFp_orientation _ _ _ _ _ _)]
    rw [show vShift (mkFp "/s2/f" "A1" ⟨0, 0⟩ ⟨0, 0⟩ ⟨0, 0⟩ none) ⟨0, 0⟩ ⟨0, 0⟩
      = (⟨0, 0⟩ : VECTOR2I) from by decide]
    rw [show movedFlag (some "subpcb_/s1") "subpcb_/s1" = false from by decide]
    rfl
  have hst2 := hstable_of_ne ⟨fpAanchor, 0⟩
    (bAM, ([] : List ReportedError)).1 2 fpAh (by decide)
  have s2 : epfStep ⟨"/s1", "s1", "/s1", some roomA, true⟩ roomA ⟨fpAanchor, 0⟩
      (fpFindLast boardOverlap.footprints) "subpcb_/s1" (bAM, []) fpAh =
      (bAF, []) := by
    rw [epfStep_write _ _ _ _ _ _ fpAh 2 (by decide) (by decide) hst2]
    simp only []
    rw [show getFp bAM 2 = mkFp "/s1/h" "H" ⟨0, 0⟩ ⟨0, 0⟩ ⟨0, 0⟩ none from rfl]
    rw [show getFp bAM 0 =
      mkFp "/s1/s2/f" "Q" ⟨0, 0⟩ ⟨0, 0⟩ ⟨0, 0⟩ (some "subpcb_/s1") from rfl]
    rw [show fpAanchor = mkFp "/s2/f" "A1" ⟨0, 0⟩ ⟨0, 0⟩ ⟨0, 0⟩ none from rfl]
    rw [show fpAh = mkFp "/h" "A2" ⟨10, 0⟩ ⟨0, 0⟩ ⟨0, 0⟩ none from rfl]
    rw [mkFp_pos, mkFp_orientation, mkFp_group]
    rw [fpWrite_mkFp _ (mkFp_orientation _ _ _ _ _ _)]
    rw [show vShift (mkFp "/s2/f" "A1" ⟨0, 0⟩ ⟨0, 0⟩ ⟨0, 0⟩ none) ⟨0, 0⟩ ⟨10, 0⟩
      = (⟨10, 0⟩ : VECTOR2I) from by decide]
    rw [show vShift (mkFp "/s2/f" "A1" ⟨0, 0⟩ ⟨0, 0⟩ ⟨0, 0⟩ none) ⟨0, 0⟩ ⟨0, 0⟩
      = (⟨0, 0⟩ : VECTOR2I) from by decide]
    rw [show movedFlag (none : Option String) "subpcb_/s1" = false from by decide]
    rfl
  have hfold : enforce_position_footprints ⟨"/s1", "s1", "/s1", some roomA, true⟩
      roomA ⟨fpAanchor, 0⟩ (fpFindLast boardOverlap.footprints) "subpcb_/s1"
      bAM = (bAF, []) := by
    rw [enforce_position_footprints_eq,
      show roomA.subboard.footprints = [fpAanchor, fpAh] from rfl,
      List.foldl_cons, s1, List.foldl_cons, s2, List.foldl_nil]
  rw [processSheet_active (fpFindLast boardOverlap.footprints)
    (boardOverlap, errs) ⟨"/s1", "s1", "/s1", some roomA, true⟩ roomA
    fpAanchor 0 rfl rfl (by decide) rfl (by decide)]
  show (copy_zones (copy_drawings (copy_traces
      (enforce_position_footprints ⟨"/s1", "s1", "/s1", some roomA, true⟩
        roomA ⟨fpAanchor, 0⟩ (fpFindLast boardOverlap.footprints) "subpcb_/s1"
        bAM).1
      roomA ⟨fpAanchor, 0⟩ "subpcb_/s1") roomA ⟨fpAanchor, 0⟩ "subpcb_/s1")
      roomA ⟨fpAanchor, 0⟩ "subpcb_/s1",
    errs ++ [] ++ (enforce_position_footprints
      ⟨"/s1", "s1", "/s1", some roomA, true⟩ roomA ⟨fpAanchor, 0⟩
      (fpFindLast boardOverlap.footprints) "subpcb_/s1" bAM).2) = (bAF, errs)
  rw [hfold]
  rw [show copy_zones (copy_drawings (copy_traces bAF roomA ⟨fpAanchor, 0⟩
    "subpcb_/s1") roomA ⟨fpAanchor, 0⟩ "subpcb_/s1") roomA ⟨fpAanchor, 0⟩
    "subpcb_/s1" = bAF from rfl]
  simp

theorem stepB_run1 (errs : List ReportedError) :
    processSheet (fpFindLast boardOverlap.footprints) (bAF, errs)
      ⟨"/s1/s2", "s2", "/s1/s2", some roomB, true⟩ =
      (boardRun1, errs ++ [⟨"footprint is in the wrong group", none,
        ErrorLevel.ERROR, none, none, some roomB⟩]) := by
  have hst1 := hstable_of_anchor ⟨fpBanchor, 1⟩
    (bBM, ([] : List ReportedError)).1 1 fpBanchor rfl rfl
  have s1 : epfStep ⟨"/s1/s2", "s2", "/s1/s2", some roomB, true⟩ roomB
      ⟨fpBanchor, 1⟩ (fpFindLast boardOverlap.footprints) "subpcb_/s1/s2"
      (bBM, []) fpBanchor = (bBM, []) := by
    rw [epfStep_write _ _ _ _ _ _ fpBanchor 1 (by decide) (by decide) hst1]
    simp only []
    rw [show getFp bBM 1 =
      mkFp "/s1/s2/g" "R" ⟨0, 0⟩ ⟨0, 0⟩ ⟨0, 0⟩ (some "subpcb_/s1/s2") from rfl]
    rw [show fpBanchor = mkFp "/g" "B1" ⟨0, 0⟩ ⟨0, 0⟩ ⟨0, 0⟩ none from rfl]
    rw [mkFp_pos, mkFp_orientation, mkFp_group]
    rw [fpWrite_mkFp _ (mkFp_orientation _ _ _ _ _ _)]
    rw [show vShift (mkFp "/g" "B1" ⟨0, 0⟩ ⟨0, 0⟩ ⟨0, 0⟩ none) ⟨0, 0⟩ ⟨0, 0⟩
      = (⟨0, 0⟩ : VECTOR2I) from by decide]
    rw [show movedFlag (some "subpcb_/s1/s2") "subpcb_/s1/s2" = false from
      by decide]
    rfl
  have hst2 := hstable_of_ne ⟨fpBanchor, 1⟩
    (bBM, ([] : List ReportedError)).1 0 fpBf (by decide)
  have s2 : epfStep ⟨"/s1/s2", "s2", "/s1/s2", some roomB, true⟩ roomB
      ⟨fpBanchor, 1⟩ (fpFindLast boardOverlap.footprints) "subpcb_/s1/s2"
      (bBM, []) fpBf =
      (boardRun1, [⟨"footprint is in the wrong group", none,
        ErrorLevel.ERROR, none, none, some roomB⟩]) := by
    rw [epfStep_write _ _ _ _ _ _ fpBf 0 (by decide) (by decide) hst2]
    simp only []
    rw [show getFp bBM 0 =
      mkFp "/s1/s2/f" "Q" ⟨0, 0⟩ ⟨0, 0⟩ ⟨0, 0⟩ (some "subpcb_/s1") from rfl]
    rw [show getFp bBM 1 =
      mkFp "/s1/s2/g" "R" ⟨0, 0⟩ ⟨0, 0⟩ ⟨0, 0⟩ (some "subpcb_/s1/s2") from rfl]
    rw [show fpBanchor = mkFp "/g" "B1" ⟨0, 0⟩ ⟨0, 0⟩ ⟨0, 0⟩ none from rfl]
    rw [show fpBf = mkFp "/f" "B2" ⟨100, 0⟩ ⟨0, 0⟩ ⟨0, 0⟩ none from rfl]
    rw [mkFp_pos, mkFp_orientation, mkFp_group]
    rw [fpWrite_mkFp _ (mkFp_orientation _ _ _ _ _ _)]
    rw [show vShift (mkFp "/g" "B1" ⟨0, 0⟩ ⟨0, 0⟩ ⟨0, 0⟩ none) ⟨0, 0⟩ ⟨100, 0⟩
      = (⟨100, 0⟩ : VECTOR2I) from by decide]
    rw [show vShift (mkFp "/g" "B1" ⟨0, 0⟩ ⟨0, 0⟩ ⟨0, 0⟩ none) ⟨0, 0⟩ ⟨0, 0⟩
      = (⟨0, 0⟩ : VECTOR2I) from by decide]
    rw [show movedFlag (some "subpcb_/s1") "subpcb_/s1/s2" = true from
      by decide]
    rfl
  have hfold : enforce_position_footprints
      ⟨"/s1/s2", "s2", "/s1/s2", some roomB, true⟩ roomB ⟨fpBanchor, 1⟩
      (fpFindLast boardOverlap.footprints) "subpcb_/s1/s2" bBM =
      (boardRun1, [⟨"footprint is in the wrong group", none,
        ErrorLevel.ERROR, none, none, some roomB⟩]) := by
    rw [enforce_position_footprints_eq,
      show roomB.subboard.footprints = [fpBanchor, fpBf] from rfl,
      List.foldl_cons, s1, List.foldl_cons, s2, List.foldl_nil]
  rw [processSheet_active (fpFindLast boardOverlap.footprints)
    (bAF, errs) ⟨"/s1/s2", "s2", "/s1/s2", some roomB, true⟩ roomB
    fpBanchor 1 rfl rfl (by decide) rfl (by decide)]
  show (copy_zones (copy_drawings (copy_traces
      (enforce_position_footprints ⟨"/s1/s2", "s2", "/s1/s2", some roomB, true⟩
        roomB ⟨fpBanchor, 1⟩ (fpFindLast boardOverlap.footprints)
        "subpcb_/s1/s2" bBM).1
      roomB ⟨fpBanchor, 1⟩ "subpcb_/s1/s2") roomB ⟨fpBanchor, 1⟩
      "subpcb_/s1/s2") roomB ⟨fpBanchor, 1⟩ "subpcb_/s1/s2",
    errs ++ [] ++ (enforce_position_footprints
      ⟨"/s1/s2", "s2", "/s1/s2", some roomB, true⟩ roomB ⟨fpBanchor, 1⟩
      (fpFindLast boardOverlap.footprints) "subpcb_/s1/s2" bBM).2) =
    (boardRun1, errs ++ [⟨"footprint is in the wrong group", none,
      ErrorLevel.ERROR, none, none, some roomB⟩])
  rw [hfold]
  rw [show copy_zones (copy_drawings (copy_traces boardRun1 roomB
    ⟨fpBanchor, 1⟩ "subpcb_/s1/s2") roomB ⟨fpBanchor, 1⟩ "subpcb_/s1/s2")
    roomB ⟨fpBanchor, 1⟩ "subpcb_/s1/s2" = boardRun1 from rfl]
  simp

theorem stepA_run2 (errs : List ReportedError) :
    processSheet (fpFindLast boardRun1.footprints) (boardRun1, errs)
      ⟨"/s1", "s1", "/s1", some roomA, true⟩ =
      (bAF2, errs ++ [⟨"anchor footprint is in the wrong group",
        some ("Expected group " ++ "subpcb_/s1"), ErrorLevel.ERROR, none, none,
        some roomA⟩]) := by
  have hst1 := hstable_of_anchor ⟨fpAanchor, 0⟩
    (bAM2, ([] : List ReportedError)).1 0 fpAanchor rfl rfl
  have s1 : epfStep ⟨"/s1", "s1", "/s1", some roomA, true⟩ roomA ⟨fpAanchor, 0⟩
      (fpFindLast boardRun1.footprints) "subpcb_/s1" (bAM2, []) fpAanchor =
      (bAF2a, []) := by
    rw [epfStep_write _ _ _ _ _ _ fpAanchor 0 (by decide) (by decide) hst1]
    simp only []
    rw [show getFp bAM2 0 =
      mkFp "/s1/s2/f" "Q" ⟨100, 0⟩ ⟨0, 0⟩ ⟨0, 0⟩ (some "subpcb_/s1") from rfl]
    rw [show fpAanchor = mkFp "/s2/f" "A1" ⟨0, 0⟩ ⟨0, 0⟩ ⟨0, 0⟩ none from rfl]
    rw [mkFp_pos, mkFp_orientation, mkFp_group]
    rw [fpWrite_mkFp _ (mkFp_orientation _ _ _ _ _ _)]
    rw [show vShift (mkFp "/s2/f" "A1" ⟨0, 0⟩ ⟨0, 0⟩ ⟨0, 0⟩ none) ⟨100, 0⟩
      ⟨0, 0⟩ = (⟨100, 0⟩ : VECTOR2I) from by decide]
    rw [show movedFlag (some "subpcb_/s1") "subpcb_/s1" = false from by decide]
    rfl
  have hst2 := hstable_of_ne ⟨fpAanchor, 0⟩
    (bAF2a, ([] : List ReportedError)).1 2 fpAh (by decide)
  have s2 : epfStep ⟨"/s1", "s1", "/s1", some roomA, true⟩ roomA ⟨fpAanchor, 0⟩
      (fpFindLast boardRun1.footprints) "subpcb_/s1" (bAF2a, []) fpAh =
      (bAF2, []) := by
    rw [epfStep_write _ _ _ _ _ _ fpAh 2 (by decide) (by decide) hst2]
    simp only []
    rw [show getFp bAF2a 2 =
      mkFp "/s1/h" "H" ⟨10, 0⟩ ⟨0, 0⟩ ⟨0, 0⟩ (some "subpcb_/s1") from rfl]
    rw [show getFp bAF2a 0 =
      mkFp "/s1/s2/f" "Q" ⟨100, 0⟩ ⟨100, 0⟩ ⟨100, 0⟩ (some "subpcb_/s1")
      from rfl]
    rw [show fpAanchor = mkFp "/s2/f" "A1" ⟨0, 0⟩ ⟨0, 0⟩ ⟨0, 0⟩ none from rfl]
    rw [show fpAh = mkFp "/h" "A2" ⟨10, 0⟩ ⟨0, 0⟩ ⟨0, 0⟩ none from rfl]
    rw [mkFp_pos, mkFp_orientation, mkFp_group]
    rw [fpWrite_mkFp _ (mkFp_orientation _ _ _ _ _ _)]
    rw [show vShift (mkFp "/s2/f" "A1" ⟨0, 0⟩ ⟨0, 0⟩ ⟨0, 0⟩ none) ⟨100, 0⟩
      ⟨10, 0⟩ = (⟨110, 0⟩ : VECTOR2I) from by decide]
    rw [show vShift (mkFp "/s2/f" "A1" ⟨0, 0⟩ ⟨0, 0⟩ ⟨0, 0⟩ none) ⟨100, 0⟩
      ⟨0, 0⟩ = (⟨100, 0⟩ : VECTOR2I) from by decide]
    rw [show movedFlag (some "subpcb_/s1") "subpcb_/s1" = false from by decide]
    rfl
  have hfold : enforce_position_footprints ⟨"/s1", "s1", "/s1", some roomA, true⟩
      roomA ⟨fpAanchor, 0⟩ (fpFindLast boardRun1.footprints) "subpcb_/s1"
      bAM2 = (bAF2, []) := by
    rw [enforce_position_footprints_eq,
      show roomA.subboard.footprints = [fpAanchor, fpAh] from rfl,
      List.foldl_cons, s1, List.foldl_cons, s2, List.foldl_nil]
  rw [processSheet_active (fpFindLast boardRun1.footprints)
    (boardRun1, errs) ⟨"/s1", "s1", "/s1", some roomA, true⟩ roomA
    fpAanchor 0 rfl rfl (by decide) rfl (by decide)]
  show (copy_zones (copy_drawings (copy_traces
      (enforce_position_footprints ⟨"/s1", "s1", "/s1", some roomA, true⟩
        roomA ⟨fpAanchor, 0⟩ (fpFindLast boardRun1.footprints) "subpcb_/s1"
        bAM2).1
      roomA ⟨fpAanchor, 0⟩ "subpcb_/s1") roomA ⟨fpAanchor, 0⟩ "subpcb_/s1")
      roomA ⟨fpAanchor, 0⟩ "subpcb_/s1",
    errs ++ [⟨"anchor footprint is in the wrong group",
      some ("Expected group " ++ "subpcb_/s1"), ErrorLevel.ERROR, none, none,
      some roomA⟩] ++ (enforce_position_footprints
      ⟨"/s1", "s1", "/s1", some roomA, true⟩ roomA ⟨fpAanchor, 0⟩
      (fpFindLast boardRun1.footprints) "subpcb_/s1" bAM2).2) =
    (bAF2, errs ++ [⟨"anchor footprint is in the wrong group",
      some ("Expected group " ++ "subpcb_/s1"), ErrorLevel.ERROR, none, none,
      some roomA⟩])
  rw [hfold]
  rw [show copy_zones (copy_drawings (copy_traces bAF2 roomA ⟨fpAanchor, 0⟩
    "subpcb_/s1") roomA ⟨fpAanchor, 0⟩ "subpcb_/s1") roomA ⟨fpAanchor, 0⟩
    "subpcb_/s1" = bAF2 from rfl]
  simp

theorem stepB_run2 (errs : List ReportedError) :
    processSheet (fpFindLast boardRun1.footprints) (bAF2, errs)
      ⟨"/s1/s2", "s2", "/s1/s2", some roomB, true⟩ =
      (boardRun2, errs ++ [⟨"footprint is in the wrong group", none,
        ErrorLevel.ERROR, none, none, some roomB⟩]) := by
  have hst1 := hstable_of_anchor ⟨fpBanchor, 1⟩
    (bAF2, ([] : List ReportedError)).1 1 fpBanchor rfl rfl
  have s1 : epfStep ⟨"/s1/s2", "s2", "/s1/s2", some roomB, true⟩ roomB
      ⟨fpBanchor, 1⟩ (fpFindLast boardRun1.footprints) "subpcb_/s1/s2"
      (bAF2, []) fpBanchor = (bAF2, []) := by
    rw [epfStep_write _ _ _ _ _ _ fpBanchor 1 (by decide) (by decide) hst1]
    simp only []
    rw [show getFp bAF2 1 =
      mkFp "/s1/s2/g" "R" ⟨0, 0⟩ ⟨0, 0⟩ ⟨0, 0⟩ (some "subpcb_/s1/s2") from rfl]
    rw [show fpBanchor = mkFp "/g" "B1" ⟨0, 0⟩ ⟨0, 0⟩ ⟨0, 0⟩ none from rfl]
    rw [mkFp_pos, mkFp_orientation, mkFp_group]
    rw [fpWrite_mkFp _ (mkFp_orientation _ _ _ _ _ _)]
    rw [show vShift (mkFp "/g" "B1" ⟨0, 0⟩ ⟨0, 0⟩ ⟨0, 0⟩ none) ⟨0, 0⟩ ⟨0, 0⟩
      = (⟨0, 0⟩ : VECTOR2I) from by decide]
    rw [show movedFlag (some "subpcb_/s1/s2") "subpcb_/s1/s2" = false from
      by decide]
    rfl
  have hst2 := hstable_of_ne ⟨fpBanchor, 1⟩
    (bAF2, ([] : List ReportedError)).1 0 fpBf (by decide)
  have s2 : epfStep ⟨"/s1/s2", "s2", "/s1/s2", some roomB, true⟩ roomB
      ⟨fpBanchor, 1⟩ (fpFindLast boardRun1.footprints) "subpcb_/s1/s2"
      (bAF2, []) fpBf =
      (boardRun2, [⟨"footprint is in the wrong group", none,
        ErrorLevel.ERROR, none, none, some roomB⟩]) := by
    rw [epfStep_write _ _ _ _ _ _ fpBf 0 (by decide) (by decide) hst2]
    simp only []
    rw [show getFp bAF2 0 =
      mkFp "/s1/s2/f" "Q" ⟨100, 0⟩ ⟨100, 0⟩ ⟨100, 0⟩ (some "subpcb_/s1")
      from rfl]
    rw [show getFp bAF2 1 =
      mkFp "/s1/s2/g" "R" ⟨0, 0⟩ ⟨0, 0⟩ ⟨0, 0⟩ (some "subpcb_/s1/s2") from rfl]
    rw [show fpBanchor = mkFp "/g" "B1" ⟨0, 0⟩ ⟨0, 0⟩ ⟨0, 0⟩ none from rfl]
    rw [show fpBf = mkFp "/f" "B2" ⟨100, 0⟩ ⟨0, 0⟩ ⟨0, 0⟩ none from rfl]
    rw [mkFp_pos, mkFp_orientation, mkFp_group]
    rw [fpWrite_mkFp _ (mkFp_orientation _ _ _ _ _ _)]
    rw [show vShift (mkFp "/g" "B1" ⟨0, 0⟩ ⟨0, 0⟩ ⟨0, 0⟩ none) ⟨0, 0⟩ ⟨100, 0⟩
      = (⟨100, 0⟩ : VECTOR2I) from by decide]
    rw [show vShift (mkFp "/g" "B1" ⟨0, 0⟩ ⟨0, 0⟩ ⟨0, 0⟩ none) ⟨0, 0⟩ ⟨0, 0⟩
      = (⟨0, 0⟩ : VECTOR2I) from by decide]
    rw [show movedFlag (some "subpcb_/s1") "subpcb_/s1/s2" = true from
      by decide]
    rfl
  have hfold : enforce_position_footprints
      ⟨"/s1/s2", "s2", "/s1/s2", some roomB, true⟩ roomB ⟨fpBanchor, 1⟩
      (fpFindLast boardRun1.footprints) "subpcb_/s1/s2" bAF2 =
      (boardRun2, [⟨"footprint is in the wrong group", none,
        ErrorLevel.ERROR, none, none, some roomB⟩]) := by
    rw [enforce_position_footprints_eq,
      show roomB.subboard.footprints = [fpBanchor, fpBf] from rfl,
      List.foldl_cons, s1, List.foldl_cons, s2, List.foldl_nil]
  rw [processSheet_active (fpFindLast boardRun1.footprints)
    (bAF2, errs) ⟨"/s1/s2", "s2", "/s1/s2", some roomB, true⟩ roomB
    fpBanchor 1 rfl rfl (by decide) rfl (by decide)]
  show (copy_zones (copy_drawings (copy_traces
      (enforce_position_footprints ⟨"/s1/s2", "s2", "/s1/s2", some roomB, true⟩
        roomB ⟨fpBanchor, 1⟩ (fpFindLast boardRun1.footprints)
        "subpcb_/s1/s2" bAF2).1
      roomB ⟨fpBanchor, 1⟩ "subpcb_/s1/s2") roomB ⟨fpBanchor, 1⟩
      "subpcb_/s1/s2") roomB ⟨fpBanchor, 1⟩ "subpcb_/s1/s2",
    errs ++ [] ++ (enforce_position_footprints
      ⟨"/s1/s2", "s2", "/s1/s2", some roomB, true⟩ roomB ⟨fpBanchor, 1⟩
      (fpFindLast boardRun1.footprints) "subpcb_/s1/s2" bAF2).2) =
    (boardRun2, errs ++ [⟨"footprint is in the wrong group", none,
      ErrorLevel.ERROR, none, none, some roomB⟩])
  rw [hfold]
  rw [show copy_zones (copy_drawings (copy_traces boardRun2 roomB
    ⟨fpBanchor, 1⟩ "subpcb_/s1/s2") roomB ⟨fpBanchor, 1⟩ "subpcb_/s1/s2")
    roomB ⟨fpBanchor, 1⟩ "subpcb_/s1/s2" = boardRun2 from rfl]
  simp

theorem run1_board : (enforce_position_run hdOverlap boardOverlap).1 =
    boardRun1 := by
  have h0 : enforce_position_run hdOverlap boardOverlap =
      List.foldl (processSheet (fpFindLast boardOverlap.footprints))
        (boardOverlap, []) (flatten hdOverlap.root_sheet none none) := rfl
  rw [h0, flatten_hdOverlap, List.foldl_cons,
    show processSheet (fpFindLast boardOverlap.footprints) (boardOverlap, [])
      ⟨"", "", "", none, false⟩ = (boardOverlap, []) from rfl,
    List.foldl_cons, stepA_run1, List.foldl_cons, stepB_run1, List.foldl_nil]

theorem run2_board : (enforce_position_run hdOverlap boardRun1).1 =
    boardRun2 := by
  have h0 : enforce_position_run hdOverlap boardRun1 =
      List.foldl (processSheet (fpFindLast boardRun1.footprints))
        (boardRun1, []) (flatten hdOverlap.root_sheet none none) := rfl
  rw [h0, flatten_hdOverlap, List.foldl_cons,
    show processSheet (fpFindLast boardRun1.footprints) (boardRun1, [])
      ⟨"", "", "", none, false⟩ = (boardRun1, []) from rfl,
    List.foldl_cons, stepA_run2, List.foldl_cons, stepB_run2, List.foldl_nil]

/-- C2 (counterexample): running the synthesis engine twice on an
unchanged tree and target can change the target again on the second run.
Sheet `/s1` places its footprint `H` relative to its anchor (target path
`/s1/s2/f`, template path `/s2/f`); the selected descendant sheet
`/s1/s2` also resolves the same target footprint (template path `/f`)
and moves it to `(100, 0)` during the first run.  The second run of
sheet `/s1` therefore reads a moved anchor and places `H` at `(110, 0)`
instead of `(10, 0)`: the board left by the second run differs from the
board left by the first. -/
theorem synthesize_not_idempotent :
    (enforce_position hdOverlap boardOverlap).1 = boardRun1 ∧
    (enforce_position hdOverlap boardRun1).1 = boardRun2 ∧
    (getFp boardRun1 2).pos = ⟨10, 0⟩ ∧
    (getFp boardRun2 2).pos = ⟨110, 0⟩ ∧
    boardRun2 ≠ boardRun1 :=
  ⟨Eq.trans (congrArg Prod.fst (show enforce_position hdOverlap boardOverlap =
      ((enforce_position_run hdOverlap boardOverlap).1, none) from rfl))
    (Eq.trans (congrArg
      (fun x : Board => ((x, (none : Option (List ReportedError)))).1)
      run1_board) rfl),
   Eq.trans (congrArg Prod.fst (show enforce_position hdOverlap boardRun1 =
      ((enforce_position_run hdOverlap boardRun1).1, none) from rfl))
    (Eq.trans (congrArg
      (fun x : Board => ((x, (none : Option (List ReportedError)))).1)
      run2_board) rfl),
   rfl, rfl,
   fun h => absurd (congrArg (fun bd => (getFp bd 2).pos.x) h) (by decide)⟩

/-! ## Idempotence of an isolated scope (amended claim C2)

The counterexample above relies on two selected scopes resolving a
common target footprint.  The development below proves the amended
claim: when the walk contains at most one effective scope and every
template footprint of that scope that resolves onto the anchor carries
the anchor template pose, a second run reproduces the first run's board
exactly. -/

theorem fieldW_idem (tA : Footprint) (mpos : VECTOR2I) (mor : ℝ)
    (src d : PCBField) :
    fieldW tA mpos mor src (fieldW tA mpos mor src d) =
      fieldW tA mpos mor src d := rfl

theorem zipW_idem (tA : Footprint) (mpos : VECTOR2I) (mor : ℝ) :
    ∀ ss ds : List PCBField,
      zipW tA mpos mor ss (zipW tA mpos mor ss ds) = zipW tA mpos mor ss ds := by
  intro ss
  induction ss with
  | nil => intro ds; rfl
  | cons s ss ih =>
    intro ds
    cases ds with
    | nil => rfl
    | cons d ds =>
      show fieldW tA mpos mor s (fieldW tA mpos mor s d) ::
          zipW tA mpos mor ss (zipW tA mpos mor ss ds) = _
      rw [fieldW_idem, ih]
      rfl

/-- Applying the same canonical write twice is the same as applying it
once. -/
theorem fpWrite_idem (tA : Footprint) (mpos : VECTOR2I) (mor : ℝ)
    (tf : Footprint) (g : String) (x : Footprint) :
    fpWrite tA mpos mor tf g (fpWrite tA mpos mor tf g x) =
      fpWrite tA mpos mor tf g x := by
  simp only [fpWrite]
  rw [zipW_idem]
  rfl

theorem fpWrite_path (tA : Footprint) (mpos : VECTOR2I) (mor : ℝ)
    (tf : Footprint) (g : String) (x : Footprint) :
    (fpWrite tA mpos mor tf g x).path = x.path := rfl

theorem fpWrite_group (tA : Footprint) (mpos : VECTOR2I) (mor : ℝ)
    (tf : Footprint) (g : String) (x : Footprint) :
    (fpWrite tA mpos mor tf g x).group = some g := rfl

/-- The board components other than the footprint list. -/
noncomputable def nonFp (b : Board) :
    Multiset Track × Multiset Drawing × Multiset Zone × List String ×
      List String :=
  (b.tracks, b.drawings, b.zones, b.nets, b.groups)

theorem nonFp_setFp (b : Board) (i : ℕ) (v : Footprint) :
    nonFp (setFp b i v) = nonFp b := rfl

/-- The path lookup table as a function of the path list only. -/
def pathFindLast (ps : List String) (p : String) : Option ℕ :=
  ps.enum.foldl (fun acc e => if e.2 = p then some e.1 else acc) none

theorem fpFindLast_eq_pathFindLast (fps : List Footprint) (p : String) :
    fpFindLast fps p = pathFindLast (fps.map Footprint.path) p := by
  unfold fpFindLast pathFindLast
  rw [List.enum_map, List.foldl_map]
  rfl

theorem fpFindLast_congr (fps fps2 : List Footprint) (p : String)
    (h : fps.map Footprint.path = fps2.map Footprint.path) :
    fpFindLast fps p = fpFindLast fps2 p := by
  rw [fpFindLast_eq_pathFindLast, fpFindLast_eq_pathFindLast, h]

theorem mem_enumFrom_fst {α : Type} :
    ∀ {l : List α} {n : ℕ} {e : ℕ × α}, e ∈ l.enumFrom n →
      e.1 < n + l.length := by
  intro l
  induction l with
  | nil =>
    intro n e h
    simp [List.enumFrom] at h
  | cons a as ih =>
    intro n e h
    simp only [List.enumFrom, List.mem_cons] at h
    rcases h with h | h
    · rw [h]
      simp
    · have := ih h
      simp only [List.length_cons]
      omega

/-- The lookup table only returns indices into the footprint list. -/
theorem fpFindLast_lt {fps : List Footprint} {p : String} {i : ℕ}
    (h : fpFindLast fps p = some i) : i < fps.length := by
  unfold fpFindLast at h
  have hgen : ∀ (l : List (ℕ × Footprint)) (acc : Option ℕ),
      (∀ j, acc = some j → j < fps.length) →
      (∀ e ∈ l, e.1 < fps.length) →
      ∀ j, l.foldl (fun acc e => if e.2.path = p then some e.1 else acc) acc
        = some j → j < fps.length := by
    intro l
    induction l with
    | nil =>
      intro acc hacc _ j hj
      exact hacc j hj
    | cons e es ih =>
      intro acc hacc hlt j hj
      simp only [List.foldl_cons] at hj
      refine ih _ ?_ (fun x hx => hlt x (List.mem_cons_of_mem _ hx)) j hj
      intro j2 hj2
      by_cases hp : e.2.path = p
      · rw [if_pos hp] at hj2
        cases hj2
        exact hlt e (List.mem_cons_self _ _)
      · rw [if_neg hp] at hj2
        exact hacc j2 hj2
  refine hgen fps.enum none (by simp) ?_ i h
  intro e he
  have := mem_enumFrom_fst (l := fps) (n := 0) (e := e) he
  simpa using this

/-- A filter by group removes nothing a second time. -/
theorem mfilter_idem {α : Type} (p : α → Prop) [DecidablePred p]
    (s : Multiset α) : (s.filter p).filter p = s.filter p := by
  rw [Multiset.filter_filter]
  apply Multiset.filter_congr
  intro a _
  simp

theorem getFp_eq_of_getElem? {b : Board} {i : ℕ} {x : Footprint}
    (hx : b.footprints[i]? = some x) : getFp b i = x := by
  unfold getFp
  rw [List.getD_eq_getElem?_getD, hx]
  rfl

/-- A path-preserving write preserves the path list. -/
theorem map_path_setFp (b : Board) (i : ℕ) (v : Footprint)
    (h : v.path = (getFp b i).path) :
    (setFp b i v).footprints.map Footprint.path =
      b.footprints.map Footprint.path := by
  apply List.ext_getElem?
  intro j
  show ((b.footprints.set i v).map Footprint.path)[j]? = _
  rw [List.getElem?_map, List.getElem?_map]
  by_cases hj : j = i
  · subst hj
    rw [List.getElem?_set_self']
    cases hx : b.footprints[j]? with
    | none => rfl
    | some x =>
      have hg : getFp b j = x := getFp_eq_of_getElem? hx
      show (Option.map _ (some x)).map _ = _
      rw [Option.map_map]
      show some (v.path) = some (x.path)
      rw [h, hg]
  · rw [List.getElem?_set_ne (fun he => hj he.symm)]

/-- A sheet of the walk that cannot reach the synthesis steps: unbound,
unchecked, illegal, anchorless, or with an unresolved anchor path. -/
def Inert (lookup : String → Option ℕ) (fs : FlatSheet) : Prop :=
  fs.pcb = none ∨
  ∃ room, fs.pcb = some room ∧
    (fs.checked = false ∨ room.is_legal = false ∨
     room.selected_anchor = none ∨
     ∃ a, room.selected_anchor = some a ∧
        lookup (fs.identifier ++ a.path) = none)

/-- An inert sheet never touches the board. -/
theorem processSheet_inert (lookup : String → Option ℕ)
    (st : Board × List ReportedError) (fs : FlatSheet)
    (h : Inert lookup fs) : (processSheet lookup st fs).1 = st.1 := by
  unfold processSheet
  rcases h with h | ⟨room, hpcb, hcase⟩
  · rw [h]
  · rw [hpcb]
    rcases hcase with hck | hleg | hanch | ⟨a, hanch, hlook⟩
    · show (if fs.checked = false then st else _).1 = st.1
      rw [if_pos hck]
    · show (if fs.checked = false then st else _).1 = st.1
      by_cases hck : fs.checked = false
      · rw [if_pos hck]
      · rw [if_neg hck, if_pos hleg]
    · show (if fs.checked = false then st else _).1 = st.1
      by_cases hck : fs.checked = false
      · rw [if_pos hck]
      · rw [if_neg hck]
        by_cases hleg : room.is_legal = false
        · rw [if_pos hleg]
        · rw [if_neg hleg, hanch]
    · show (if fs.checked = false then st else _).1 = st.1
      by_cases hck : fs.checked = false
      · rw [if_pos hck]
      · rw [if_neg hck]
        by_cases hleg : room.is_legal = false
        · rw [if_pos hleg]
        · rw [if_neg hleg]
          simp only [hanch]
          rw [hlook]

/-- A fold over inert sheets never touches the board. -/
theorem foldl_inert (lookup : String → Option ℕ) :
    ∀ l : List FlatSheet, (∀ fs ∈ l, Inert lookup fs) →
      ∀ st : Board × List ReportedError,
        (l.foldl (processSheet lookup) st).1 = st.1 := by
  intro l
  induction l with
  | nil => intro _ st; rfl
  | cons fs l ih =>
    intro hall st
    rw [List.foldl_cons]
    rw [ih (fun x hx => hall x (List.mem_cons_of_mem _ hx))]
    exact processSheet_inert lookup st fs (hall fs (List.mem_cons_self _ _))

/-- Inertness only reads the lookup table pointwise. -/
theorem Inert_congr (lookup lookup2 : String → Option ℕ) (fs : FlatSheet)
    (hpt : ∀ p, lookup2 p = lookup p) (h : Inert lookup fs) :
    Inert lookup2 fs := by
  rcases h with h | ⟨room, hpcb, hc⟩
  · exact Or.inl h
  · refine Or.inr ⟨room, hpcb, ?_⟩
    rcases hc with h1 | h2 | h3 | ⟨a, ha, hl⟩
    · exact Or.inl h1
    · exact Or.inr (Or.inl h2)
    · exact Or.inr (Or.inr (Or.inl h3))
    · exact Or.inr (Or.inr (Or.inr ⟨a, ha, by rw [hpt]; exact hl⟩))

theorem len_setFp (b : Board) (i : ℕ) (v : Footprint) :
    (setFp b i v).footprints.length = b.footprints.length := by
  simp [setFp]

/-- Anchor stability of a resolved template write, from the pose
condition. -/
theorem hstable_of_resolved (tA : Footprint) (aIdx i : ℕ) (b : Board)
    (tf : Footprint)
    (h : aIdx = i → tf.pos = tA.pos ∧ tf.orientation = tA.orientation) :
    (⟨tA, aIdx⟩ : PositionTransform).anchor_mutate = i →
      translateAtC (⟨tA, aIdx⟩ : PositionTransform).anchor_template
          (getFp b i).pos (getFp b i).orientation tf.pos = (getFp b i).pos ∧
        orientAtC (⟨tA, aIdx⟩ : PositionTransform).anchor_template
          (getFp b i).orientation tf.orientation = (getFp b i).orientation := by
  intro hai
  have h2 := h hai
  exact hstable_of_anchor ⟨tA, aIdx⟩ b i tf h2.1 h2.2 hai

/-- The footprint loop of one run, from a board whose anchor pose is
`(P0, O0)`: the non-footprint state and the path list are unchanged, the
anchor keeps its pose and group, every resolved template footprint leaves
its target in canonical written form, and unresolved indices are
untouched. -/
theorem epf_fold_run1 (fs : FlatSheet) (room : PCBRoom) (tA : Footprint)
    (aIdx : ℕ) (lookup : String → Option ℕ) (g : String) (P0 : VECTOR2I)
    (O0 : ℝ) :
    ∀ (l : List Footprint),
      (∀ tf ∈ l, lookup (fs.identifier ++ tf.path) = some aIdx →
        tf.pos = tA.pos ∧ tf.orientation = tA.orientation) →
      (l.filterMap (fun tf => lookup (fs.identifier ++ tf.path))).Nodup →
      ∀ (b : Board) (e : List ReportedError),
        (∀ p i, lookup p = some i → i < b.footprints.length) →
        (getFp b aIdx).pos = P0 → (getFp b aIdx).orientation = O0 →
        (getFp b aIdx).group = some g →
        nonFp (l.foldl (epfStep fs room ⟨tA, aIdx⟩ lookup g) (b, e)).1 =
            nonFp b ∧
          (l.foldl (epfStep fs room ⟨tA, aIdx⟩ lookup g)
              (b, e)).1.footprints.map Footprint.path =
            b.footprints.map Footprint.path ∧
          (getFp (l.foldl (epfStep fs room ⟨tA, aIdx⟩ lookup g) (b, e)).1
            aIdx).pos = P0 ∧
          (getFp (l.foldl (epfStep fs room ⟨tA, aIdx⟩ lookup g) (b, e)).1
            aIdx).orientation = O0 ∧
          (getFp (l.foldl (epfStep fs room ⟨tA, aIdx⟩ lookup g) (b, e)).1
            aIdx).group = some g ∧
          (∀ tf ∈ l, ∀ i, lookup (fs.identifier ++ tf.path) = some i →
            ∃ y, getFp (l.foldl (epfStep fs room ⟨tA, aIdx⟩ lookup g)
              (b, e)).1 i = fpWrite tA P0 O0 tf g y) ∧
          (∀ j, (∀ tf ∈ l, lookup (fs.identifier ++ tf.path) ≠ some j) →
            getFp (l.foldl (epfStep fs room ⟨tA, aIdx⟩ lookup g) (b, e)).1 j =
              getFp b j) := by
  intro l
  induction l with
  | nil =>
    intro _ _ b e _ hpos hor hgrp
    refine ⟨rfl, rfl, hpos, hor, hgrp, ?_, ?_⟩
    · intro tf htf
      exact absurd htf (List.not_mem_nil tf)
    · intro j _
      rfl
  | cons tf rest ih =>
    intro hsub hnodup b e hlt hpos hor hgrp
    rw [List.foldl_cons]
    cases hlk : lookup (fs.identifier ++ tf.path) with
    | none =>
      rw [epfStep_skip _ _ _ _ _ _ _ hlk]
      have hndrest : (rest.filterMap
          (fun tf => lookup (fs.identifier ++ tf.path))).Nodup := by
        rwa [List.filterMap_cons_none (by exact hlk)] at hnodup
      have hrest := ih (fun t ht h2 => hsub t (List.mem_cons_of_mem _ ht) h2)
        hndrest b (e ++ [⟨"footprint not found, skipping",
          some ("Corresponding to " ++ tf.reference ++ " for sheet " ++
            fs.humanName), ErrorLevel.WARNING, some tf, none, some room⟩])
        hlt hpos hor hgrp
      refine ⟨hrest.1, hrest.2.1, hrest.2.2.1, hrest.2.2.2.1,
        hrest.2.2.2.2.1, ?_, ?_⟩
      · intro t ht i hi
        rcases List.mem_cons.mp ht with rfl | ht'
        · rw [hlk] at hi
          exact absurd hi (by simp)
        · exact hrest.2.2.2.2.2.1 t ht' i hi
      · intro j hj
        exact hrest.2.2.2.2.2.2 j (fun t ht => hj t (List.mem_cons_of_mem _ ht))
    | some i =>
      have hlen : i < b.footprints.length := hlt _ _ hlk
      have hst := hstable_of_resolved tA aIdx i b tf
        (fun hai => hsub tf (List.mem_cons_self _ _) (by rw [hai]; exact hlk))
      rw [epfStep_write fs room ⟨tA, aIdx⟩ lookup g (b, e) tf i hlk hlen hst]
      simp only []
      rw [hpos, hor]
      have hndc : i ∉ rest.filterMap
            (fun tf => lookup (fs.identifier ++ tf.path)) ∧
          (rest.filterMap (fun tf => lookup (fs.identifier ++ tf.path))).Nodup := by
        rw [List.filterMap_cons_some (by exact hlk)] at hnodup
        exact List.nodup_cons.mp hnodup
      have hni : ∀ t ∈ rest, lookup (fs.identifier ++ t.path) ≠ some i := by
        intro t ht hti
        exact hndc.1 (List.mem_filterMap.mpr ⟨t, ht, hti⟩)
      have hmap' : (setFp b i (fpWrite tA P0 O0 tf g
            (getFp b i))).footprints.map Footprint.path =
          b.footprints.map Footprint.path :=
        map_path_setFp b i _ (fpWrite_path tA P0 O0 tf g (getFp b i))
      have hlt' : ∀ p j, lookup p = some j →
          j < (setFp b i (fpWrite tA P0 O0 tf g
            (getFp b i))).footprints.length := by
        intro p j hj
        rw [len_setFp]
        exact hlt p j hj
      have hpose' : (getFp (setFp b i (fpWrite tA P0 O0 tf g (getFp b i)))
            aIdx).pos = P0 ∧
          (getFp (setFp b i (fpWrite tA P0 O0 tf g (getFp b i)))
            aIdx).orientation = O0 ∧
          (getFp (setFp b i (fpWrite tA P0 O0 tf g (getFp b i)))
            aIdx).group = some g := by
        by_cases hai : aIdx = i
        · subst hai
          rw [getFp_set_self b aIdx _ hlen]
          have h2 := hsub tf (List.mem_cons_self _ _) hlk
          refine ⟨?_, ?_, rfl⟩
          · show translateAtC tA P0 O0 tf.pos = P0
            rw [h2.1]
            exact translateAtC_anchor tA P0 O0
          · show orientAtC tA O0 tf.orientation = O0
            rw [h2.2]
            exact orientAtC_anchor tA O0
        · rw [getFp_set_ne b i aIdx _ hai]
          exact ⟨hpos, hor, hgrp⟩
      have hrest := ih (fun t ht h2 => hsub t (List.mem_cons_of_mem _ ht) h2)
        hndc.2 (setFp b i (fpWrite tA P0 O0 tf g (getFp b i)))
        (e ++ (if movedFlag (getFp b i).group g then
          [⟨"footprint is in the wrong group", none, ErrorLevel.ERROR, none,
            none, some room⟩] else []))
        hlt' hpose'.1 hpose'.2.1 hpose'.2.2
      refine ⟨Eq.trans hrest.1 (nonFp_setFp b i _),
        Eq.trans hrest.2.1 hmap', hrest.2.2.1, hrest.2.2.2.1,
        hrest.2.2.2.2.1, ?_, ?_⟩
      · intro t ht j hj
        rcases List.mem_cons.mp ht with rfl | ht'
        · rw [hlk] at hj
          have hij : i = j := by
            injection hj
          subst hij
          refine ⟨getFp b i, ?_⟩
          rw [hrest.2.2.2.2.2.2 i hni, getFp_set_self b i _ hlen]
        · exact hrest.2.2.2.2.2.1 t ht' j hj
      · intro j hj
        have hji : j ≠ i := by
          intro hji
          exact hj tf (List.mem_cons_self _ _) (by rw [hlk, hji])
        rw [hrest.2.2.2.2.2.2 j (fun t ht => hj t (List.mem_cons_of_mem _ ht)),
          getFp_set_ne b i j _ hji]

/-- The footprint loop of a repeated run is a no-op on the board: every
resolved target already carries its canonical written value. -/
theorem epf_fold_fixpoint (fs : FlatSheet) (room : PCBRoom) (tA : Footprint)
    (aIdx : ℕ) (lookup : String → Option ℕ) (g : String) (P0 : VECTOR2I)
    (O0 : ℝ) :
    ∀ (l : List Footprint),
      (∀ tf ∈ l, lookup (fs.identifier ++ tf.path) = some aIdx →
        tf.pos = tA.pos ∧ tf.orientation = tA.orientation) →
      ∀ (v : Board) (e : List ReportedError),
        (∀ p i, lookup p = some i → i < v.footprints.length) →
        (getFp v aIdx).pos = P0 → (getFp v aIdx).orientation = O0 →
        (∀ tf ∈ l, ∀ i, lookup (fs.identifier ++ tf.path) = some i →
          ∃ y, getFp v i = fpWrite tA P0 O0 tf g y) →
        (l.foldl (epfStep fs room ⟨tA, aIdx⟩ lookup g) (v, e)).1 = v := by
  intro l
  induction l with
  | nil =>
    intro _ v e _ _ _ _
    rfl
  | cons tf rest ih =>
    intro hsub v e hlt hpos hor hfix
    rw [List.foldl_cons]
    cases hlk : lookup (fs.identifier ++ tf.path) with
    | none =>
      rw [epfStep_skip _ _ _ _ _ _ _ hlk]
      exact ih (fun t ht h2 => hsub t (List.mem_cons_of_mem _ ht) h2) v
        (e ++ [⟨"footprint not found, skipping",
          some ("Corresponding to " ++ tf.reference ++ " for sheet " ++
            fs.humanName), ErrorLevel.WARNING, some tf, none, some room⟩])
        hlt hpos hor
        (fun t ht i hi => hfix t (List.mem_cons_of_mem _ ht) i hi)
    | some i =>
      have hlen : i < v.footprints.length := hlt _ _ hlk
      have hst := hstable_of_resolved tA aIdx i v tf
        (fun hai => hsub tf (List.mem_cons_self _ _) (by rw [hai]; exact hlk))
      rw [epfStep_write fs room ⟨tA, aIdx⟩ lookup g (v, e) tf i hlk hlen hst]
      simp only []
      rw [hpos, hor]
      obtain ⟨y, hy⟩ := hfix tf (List.mem_cons_self _ _) i hlk
      rw [hy, fpWrite_idem, ← hy, setFp_self v i hlen]
      exact ih (fun t ht h2 => hsub t (List.mem_cons_of_mem _ ht) h2) v
        (e ++ (if movedFlag (getFp v i).group g then
          [⟨"footprint is in the wrong group", none, ErrorLevel.ERROR, none,
            none, some room⟩] else []))
        hlt hpos hor
        (fun t ht i2 hi => hfix t (List.mem_cons_of_mem _ ht) i2 hi)

theorem create_or_get_footprints (b : Board) (g : String) :
    (create_or_get b g).footprints = b.footprints := by
  unfold create_or_get
  split <;> rfl

theorem create_or_get_tracks (b : Board) (g : String) :
    (create_or_get b g).tracks = b.tracks := by
  unfold create_or_get
  split <;> rfl

theorem create_or_get_drawings (b : Board) (g : String) :
    (create_or_get b g).drawings = b.drawings := by
  unfold create_or_get
  split <;> rfl

theorem create_or_get_zones (b : Board) (g : String) :
    (create_or_get b g).zones = b.zones := by
  unfold create_or_get
  split <;> rfl

theorem create_or_get_nets (b : Board) (g : String) :
    (create_or_get b g).nets = b.nets := by
  unfold create_or_get
  split <;> rfl

theorem create_or_get_mem (b : Board) (g : String) :
    g ∈ (create_or_get b g).groups := by
  unfold create_or_get
  split
  next h => simpa using h
  next h => simp

theorem create_or_get_of_mem (b : Board) (g : String) (h : g ∈ b.groups) :
    create_or_get b g = b := by
  unfold create_or_get
  rw [if_pos (by simpa using h)]

theorem getFp_congr {b c : Board} (h : b.footprints = c.footprints) (i : ℕ) :
    getFp b i = getFp c i := by
  unfold getFp
  rw [h]

/-- Moving a footprint into the group it already belongs to changes
nothing. -/
theorem groupMoveFp_already (b : Board) (i : ℕ) (g : String)
    (hlen : i < b.footprints.length) (hg : (getFp b i).group = some g) :
    groupMoveFp b i g = (b, false) := by
  rw [groupMoveFp_canonical b i g hlen, hg, movedFlag_some, if_neg (by simp)]
  have hv : fpGroupW g (getFp b i) = getFp b i := by
    rw [fpGroupW, ← hg]
  rw [hv, setFp_self b i hlen]

theorem Board.ext_parts {b c : Board} (h1 : b.footprints = c.footprints)
    (h2 : b.tracks = c.tracks) (h3 : b.drawings = c.drawings)
    (h4 : b.zones = c.zones) (h5 : b.nets = c.nets)
    (h6 : b.groups = c.groups) : b = c := by
  cases b
  cases c
  congr 1

/-- Every generated item of a copy step is removed again by a clear of
the same group. -/
theorem mfilter_map_zero {α β : Type} (P : β → Prop) [DecidablePred P]
    (l : List α) (F : α → β) (hF : ∀ x, ¬ P (F x)) :
    (↑(l.map F) : Multiset β).filter P = 0 := by
  induction l with
  | nil => rfl
  | cons x xs ih =>
    show Multiset.filter P ↑(F x :: xs.map F) = 0
    rw [← Multiset.cons_coe, Multiset.filter_cons_of_neg _ (hF x), ih]

theorem find_or_set_net_congr {b c : Board} (h : b.nets = c.nets)
    (n : String) : find_or_set_net b n = find_or_set_net c n := by
  unfold find_or_set_net
  rw [h]

theorem translate_congr (tr : PositionTransform) {b c : Board}
    (h1 : (getFp b tr.anchor_mutate).pos = (getFp c tr.anchor_mutate).pos)
    (h2 : (getFp b tr.anchor_mutate).orientation =
      (getFp c tr.anchor_mutate).orientation) (p : VECTOR2I) :
    tr.translate b p = tr.translate c p := by
  rw [translate_eq_core, translate_eq_core, h1, h2]

theorem orient_congr (tr : PositionTransform) {b c : Board}
    (h2 : (getFp b tr.anchor_mutate).orientation =
      (getFp c tr.anchor_mutate).orientation) (r : ℝ) :
    tr.orient b r = tr.orient c r := by
  rw [orient_eq_core, orient_eq_core, h2]

theorem nonFp_tracks {b c : Board} (h : nonFp b = nonFp c) :
    b.tracks = c.tracks := congrArg (fun t => t.1) h

theorem nonFp_drawings {b c : Board} (h : nonFp b = nonFp c) :
    b.drawings = c.drawings := congrArg (fun t => t.2.1) h

theorem nonFp_zones {b c : Board} (h : nonFp b = nonFp c) :
    b.zones = c.zones := congrArg (fun t => t.2.2.1) h

theorem nonFp_nets {b c : Board} (h : nonFp b = nonFp c) :
    b.nets = c.nets := congrArg (fun t => t.2.2.2.1) h

theorem nonFp_groups {b c : Board} (h : nonFp b = nonFp c) :
    b.groups = c.groups := congrArg (fun t => t.2.2.2.2) h

/-- A multiset that is already the result of a filter absorbs another
pass of the same filter. -/
theorem mfilter_absorb {α : Type} (p : α → Prop) [DecidablePred p]
    (s t : Multiset α) (h : s = t.filter p) : s.filter p = s := by
  rw [h, mfilter_idem]

/-- Every track generated by `copy_traces` lands in the group, so the
matching clear filter removes all of them. -/
theorem copy_traces_zero (b : Board) (room : PCBRoom)
    (tr : PositionTransform) (g : String) :
    Multiset.filter (fun t => ¬ t.group = some g)
      (↑(room.subboard.tracks.map (fun tk =>
        ({ tk with
          netname := find_or_set_net b tk.netname
          start := tr.translate b tk.start
          stop := tr.translate b tk.stop
          isFree := if tk.isVia then false else tk.isFree
          group := some g } : Track))) : Multiset Track) = 0 :=
  mfilter_map_zero _ _ _ (fun _ => not_not_intro rfl)

theorem copy_traces_clear (b : Board) (room : PCBRoom)
    (tr : PositionTransform) (g : String) :
    (copy_traces b room tr g).tracks.filter (fun t => ¬ t.group = some g) =
      b.tracks.filter (fun t => ¬ t.group = some g) := by
  unfold copy_traces
  simp only []
  rw [Multiset.filter_add, copy_traces_zero b room tr g, add_zero]

/-- Every drawing generated by `copy_drawings` lands in the group, so
the matching clear filter removes all of them. -/
theorem copy_drawings_zero (b : Board) (room : PCBRoom)
    (tr : PositionTransform) (g : String) :
    Multiset.filter (fun d2 => ¬ d2.group = some g)
      (↑(room.subboard.drawings.map (fun dw =>
        ({ dw with
          pos := tr.translate b dw.pos
          angle := dw.angle + tr.orient b 0
          group := some g } : Drawing))) : Multiset Drawing) = 0 :=
  mfilter_map_zero _ _ _ (fun _ => not_not_intro rfl)

theorem copy_drawings_clear (b : Board) (room : PCBRoom)
    (tr : PositionTransform) (g : String) :
    (copy_drawings b room tr g).drawings.filter
        (fun d2 => ¬ d2.group = some g) =
      b.drawings.filter (fun d2 => ¬ d2.group = some g) := by
  unfold copy_drawings
  simp only []
  rw [Multiset.filter_add, copy_drawings_zero b room tr g, add_zero]

/-- Every zone generated by `copy_zones` lands in the group, so the
matching clear filter removes all of them. -/
theorem copy_zones_zero (b : Board) (room : PCBRoom)
    (tr : PositionTransform) (g : String) :
    Multiset.filter (fun z => ¬ z.group = some g)
      (↑(room.subboard.zones.map (fun z =>
        ({ z with
          pos := tr.translate b z.pos
          angle := z.angle + tr.orient b 0
          group := some g } : Zone))) : Multiset Zone) = 0 :=
  mfilter_map_zero _ _ _ (fun _ => not_not_intro rfl)

theorem copy_zones_clear (b : Board) (room : PCBRoom)
    (tr : PositionTransform) (g : String) :
    (copy_zones b room tr g).zones.filter (fun z => ¬ z.group = some g) =
      b.zones.filter (fun z => ¬ z.group = some g) := by
  unfold copy_zones
  simp only []
  rw [Multiset.filter_add, copy_zones_zero b room tr g, add_zero]

/-- An effective scope whose resolved template writes never alias each
other and keep the anchor pose is idempotent: running the per-sheet body
a second time (with a lookup table that agrees pointwise, which the
rebuilt one does because the first run preserves paths) reproduces the
same board; and the first run preserves the path list. -/
theorem processSheet_active_idem (b : Board)
    (errs errs2 : List ReportedError) (fs : FlatSheet) (room : PCBRoom)
    (a : Footprint) (aIdx : ℕ) (lookup lookup2 : String → Option ℕ)
    (hpt : ∀ p, lookup2 p = lookup p)
    (hpcb : fs.pcb = some room) (hck : fs.checked = true)
    (hleg : room.is_legal = true) (hanch : room.selected_anchor = some a)
    (hlook : lookup (fs.identifier ++ a.path) = some aIdx)
    (hlt : ∀ p i, lookup p = some i → i < b.footprints.length)
    (hstab : ∀ tf ∈ room.subboard.footprints,
      lookup (fs.identifier ++ tf.path) = some aIdx →
        tf.pos = a.pos ∧ tf.orientation = a.orientation)
    (hnodup : (room.subboard.footprints.filterMap
      (fun tf => lookup (fs.identifier ++ tf.path))).Nodup) :
    (processSheet lookup2 ((processSheet lookup (b, errs) fs).1, errs2)
        fs).1 = (processSheet lookup (b, errs) fs).1 ∧
    (processSheet lookup (b, errs) fs).1.footprints.map Footprint.path =
      b.footprints.map Footprint.path := by
  have hlook2 : lookup2 (fs.identifier ++ a.path) = some aIdx := by
    rw [hpt]
    exact hlook
  set g := "subpcb_" ++ fs.humanPath with hgdef
  set bc := clear_drawings (clear_traces (clear_zones (create_or_get b g) g)
    g) g with hbcdef
  have hbcfp : bc.footprints = b.footprints := create_or_get_footprints b g
  have hlenA : aIdx < bc.footprints.length := by
    rw [hbcfp]
    exact hlt _ _ hlook
  have hgm := groupMoveFp_canonical bc aIdx g hlenA
  set bm := setFp bc aIdx (fpGroupW g (getFp bc aIdx)) with hbmdef
  set P0 := (getFp b aIdx).pos with hP0def
  set O0 := (getFp b aIdx).orientation with hO0def
  have hBCanchor : getFp bc aIdx = getFp b aIdx := getFp_congr hbcfp aIdx
  have hposBM : (getFp bm aIdx).pos = P0 := by
    rw [hbmdef, getFp_set_self bc aIdx _ hlenA]
    show (getFp bc aIdx).pos = P0
    rw [hBCanchor]
  have horBM : (getFp bm aIdx).orientation = O0 := by
    rw [hbmdef, getFp_set_self bc aIdx _ hlenA]
    show (getFp bc aIdx).orientation = O0
    rw [hBCanchor]
  have hgrpBM : (getFp bm aIdx).group = some g := by
    rw [hbmdef, getFp_set_self bc aIdx _ hlenA]
    rfl
  have hmapBM : bm.footprints.map Footprint.path =
      b.footprints.map Footprint.path := by
    rw [hbmdef]
    rw [show (setFp bc aIdx (fpGroupW g (getFp bc aIdx))).footprints.map
        Footprint.path = bc.footprints.map Footprint.path from
      map_path_setFp bc aIdx _ rfl]
    rw [hbcfp]
  have hltBM : ∀ p i, lookup p = some i → i < bm.footprints.length := by
    intro p i hp
    rw [hbmdef, len_setFp,
      show bc.footprints.length = b.footprints.length from
        congrArg List.length hbcfp]
    exact hlt p i hp
  have hfold := epf_fold_run1 fs room a aIdx lookup g P0 O0
    room.subboard.footprints hstab hnodup bm [] hltBM hposBM horBM hgrpBM
  set u := (room.subboard.footprints.foldl
    (epfStep fs room ⟨a, aIdx⟩ lookup g) (bm, ([] : List ReportedError))).1
    with hudef
  set B1 := copy_zones (copy_drawings (copy_traces u room ⟨a, aIdx⟩ g) room
    ⟨a, aIdx⟩ g) room ⟨a, aIdx⟩ g with hB1def
  have hmapU : u.footprints.map Footprint.path =
      b.footprints.map Footprint.path := hfold.2.1.trans hmapBM
  have hlenfpU : u.footprints.length = b.footprints.length := by
    have h2 := congrArg List.length hmapU
    simpa using h2
  have hltU : ∀ p i, lookup p = some i → i < u.footprints.length := by
    intro p i hp
    rw [hlenfpU]
    exact hlt p i hp
  have hposU : (getFp u aIdx).pos = P0 := hfold.2.2.1
  have horU : (getFp u aIdx).orientation = O0 := hfold.2.2.2.1
  have hgrpU : (getFp u aIdx).group = some g := hfold.2.2.2.2.1
  have hfixU := hfold.2.2.2.2.2.1
  have hUtr : u.tracks = b.tracks.filter (fun t => ¬ t.group = some g) := by
    have h1 : u.tracks = bc.tracks := nonFp_tracks hfold.1
    rw [h1]
    show ((create_or_get b g).tracks).filter (fun t => ¬ t.group = some g) = _
    rw [create_or_get_tracks]
  have hUdw : u.drawings =
      b.drawings.filter (fun d2 => ¬ d2.group = some g) := by
    have h1 : u.drawings = bc.drawings := nonFp_drawings hfold.1
    rw [h1]
    show ((create_or_get b g).drawings).filter
      (fun d2 => ¬ d2.group = some g) = _
    rw [create_or_get_drawings]
  have hUz : u.zones = ((b.zones.filter (fun z => ¬ z.group = some g)).filter
      (fun z => ¬ z.group = some g)) := by
    have h1 : u.zones = bc.zones := nonFp_zones hfold.1
    rw [h1]
    show (((create_or_get b g).zones).filter
      (fun z => ¬ z.group = some g)).filter (fun z => ¬ z.group = some g) = _
    rw [create_or_get_zones]
  have hUnets : u.nets = b.nets := by
    have h1 : u.nets = bc.nets := nonFp_nets hfold.1
    rw [h1]
    show (create_or_get b g).nets = _
    rw [create_or_get_nets]
  have hUtrf : u.tracks.filter (fun t => ¬ t.group = some g) = u.tracks :=
    mfilter_absorb _ _ _ hUtr
  have hUdwf : u.drawings.filter (fun d2 => ¬ d2.group = some g) =
      u.drawings := mfilter_absorb _ _ _ hUdw
  have hUzf : u.zones.filter (fun z => ¬ z.group = some g) = u.zones :=
    mfilter_absorb _ _ _ hUz
  have hmemB1 : g ∈ B1.groups := by
    show g ∈ u.groups
    rw [nonFp_groups hfold.1]
    show g ∈ (create_or_get b g).groups
    exact create_or_get_mem b g
  have hB1trf : B1.tracks.filter (fun t => ¬ t.group = some g) =
      u.tracks := by
    have h1 : B1.tracks.filter (fun t => ¬ t.group = some g) =
        (copy_traces u room ⟨a, aIdx⟩ g).tracks.filter
          (fun t => ¬ t.group = some g) := rfl
    rw [h1, copy_traces_clear]
    exact hUtrf
  have hB1dwf : B1.drawings.filter (fun d2 => ¬ d2.group = some g) =
      u.drawings := by
    have h1 : B1.drawings.filter (fun d2 => ¬ d2.group = some g) =
        (copy_drawings (copy_traces u room ⟨a, aIdx⟩ g) room ⟨a, aIdx⟩
          g).drawings.filter (fun d2 => ¬ d2.group = some g) := rfl
    rw [h1, copy_drawings_clear]
    have h2 : (copy_traces u room ⟨a, aIdx⟩ g).drawings = u.drawings := rfl
    rw [h2]
    exact hUdwf
  have hB1zf1 : B1.zones.filter (fun z => ¬ z.group = some g) =
      u.zones := by
    have h1 : B1.zones.filter (fun z => ¬ z.group = some g) =
        (copy_zones (copy_drawings (copy_traces u room ⟨a, aIdx⟩ g) room
          ⟨a, aIdx⟩ g) room ⟨a, aIdx⟩ g).zones.filter
          (fun z => ¬ z.group = some g) := rfl
    rw [h1, copy_zones_clear]
    have h2 : (copy_drawings (copy_traces u room ⟨a, aIdx⟩ g) room
        ⟨a, aIdx⟩ g).zones = u.zones := rfl
    rw [h2]
    exact hUzf
  have hB1zf : ((B1.zones.filter (fun z => ¬ z.group = some g)).filter
      (fun z => ¬ z.group = some g)) = u.zones := by
    rw [hB1zf1]
    exact hUzf
  have hbc2 : clear_drawings (clear_traces (clear_zones (create_or_get B1 g)
      g) g) g = u := by
    rw [create_or_get_of_mem B1 g hmemB1]
    exact Board.ext_parts rfl hB1trf hB1dwf hB1zf rfl rfl
  have hstab2 : ∀ tf ∈ room.subboard.footprints,
      lookup2 (fs.identifier ++ tf.path) = some aIdx →
        tf.pos = a.pos ∧ tf.orientation = a.orientation := by
    intro tf ht h2
    refine hstab tf ht ?_
    rw [← hpt]
    exact h2
  have hlt2 : ∀ p i, lookup2 p = some i → i < u.footprints.length := by
    intro p i hp
    rw [hpt] at hp
    exact hltU p i hp
  have hfix2 : ∀ tf ∈ room.subboard.footprints, ∀ i,
      lookup2 (fs.identifier ++ tf.path) = some i →
        ∃ y, getFp u i = fpWrite a P0 O0 tf g y := by
    intro tf ht i hi
    rw [hpt] at hi
    exact hfixU tf ht i hi
  have hlenU : aIdx < u.footprints.length := by
    rw [hlenfpU]
    exact hlt _ _ hlook
  have hfix := epf_fold_fixpoint fs room a aIdx lookup2 g P0 O0
    room.subboard.footprints hstab2 u [] hlt2 hposU horU hfix2
  have hR1 : (processSheet lookup (b, errs) fs).1 = B1 := by
    rw [processSheet_active lookup (b, errs) fs room a aIdx hpcb hck hleg
      hanch hlook]
    simp only []
    rw [← hgdef, ← hbcdef, hgm]
    simp only []
    rw [enforce_position_footprints_eq, ← hudef, hB1def]
  have hR2 : (processSheet lookup2 (B1, errs2) fs).1 = B1 := by
    rw [processSheet_active lookup2 (B1, errs2) fs room a aIdx hpcb hck hleg
      hanch hlook2]
    simp only []
    rw [← hgdef, hbc2]
    rw [groupMoveFp_already u aIdx g hlenU hgrpU]
    simp only []
    rw [enforce_position_footprints_eq, hfix, hB1def]
  constructor
  · rw [hR1]
    exact hR2
  · rw [hR1]
    show u.footprints.map Footprint.path = b.footprints.map Footprint.path
    exact hmapU

/-- C2 (amended): `synthesize` *is* idempotent whenever at most one
sheet of the walk is effective - every other flattened sheet is inert
(unchecked, missing or illegal room, or unresolved anchor) - and the
effective sheet's resolved template writes hit pairwise distinct targets
while every template that resolves onto the anchor itself carries the
anchor template's pose.  Under these conditions the first run preserves
the board's path list, the rebuilt lookup agrees with the original one,
and the second run reproduces the first run's board exactly. -/
theorem enforce_position_idempotent (hd : HierarchicalData) (b : Board)
    (L1 L2 : List FlatSheet) (fsA : FlatSheet) (room : PCBRoom)
    (a : Footprint) (aIdx : ℕ)
    (hsplit : flatten hd.root_sheet none none = L1 ++ fsA :: L2)
    (hinert : ∀ fs ∈ L1 ++ L2, Inert (fpFindLast b.footprints) fs)
    (hpcb : fsA.pcb = some room) (hck : fsA.checked = true)
    (hleg : room.is_legal = true) (hanch : room.selected_anchor = some a)
    (hlook : fpFindLast b.footprints (fsA.identifier ++ a.path) = some aIdx)
    (hstab : ∀ tf ∈ room.subboard.footprints,
      fpFindLast b.footprints (fsA.identifier ++ tf.path) = some aIdx →
        tf.pos = a.pos ∧ tf.orientation = a.orientation)
    (hnodup : (room.subboard.footprints.filterMap
      (fun tf => fpFindLast b.footprints (fsA.identifier ++ tf.path))).Nodup) :
    (enforce_position hd (enforce_position hd b).1).1 =
      (enforce_position hd b).1 := by
  have hinertL1 : ∀ fs ∈ L1, Inert (fpFindLast b.footprints) fs :=
    fun fs hfs => hinert fs (List.mem_append_left L2 hfs)
  have hinertL2 : ∀ fs ∈ L2, Inert (fpFindLast b.footprints) fs :=
    fun fs hfs => hinert fs (List.mem_append_right L1 hfs)
  have hlt : ∀ p i, fpFindLast b.footprints p = some i →
      i < b.footprints.length := fun p i h => fpFindLast_lt h
  have hM1b : (List.foldl (processSheet (fpFindLast b.footprints)) (b, [])
      L1).1 = b := foldl_inert (fpFindLast b.footprints) L1 hinertL1 (b, [])
  have hM1eta : List.foldl (processSheet (fpFindLast b.footprints)) (b, [])
      L1 = (b, (List.foldl (processSheet (fpFindLast b.footprints)) (b, [])
        L1).2) := Prod.ext hM1b rfl
  have hBrun : (enforce_position_run hd b).1 =
      (processSheet (fpFindLast b.footprints)
        (List.foldl (processSheet (fpFindLast b.footprints)) (b, []) L1)
        fsA).1 := by
    have h0 : enforce_position_run hd b =
        List.foldl (processSheet (fpFindLast b.footprints)) (b, [])
          (flatten hd.root_sheet none none) := rfl
    rw [h0, hsplit, List.foldl_append, List.foldl_cons]
    exact foldl_inert (fpFindLast b.footprints) L2 hinertL2 _
  have hBC : (enforce_position_run hd b).1 =
      (processSheet (fpFindLast b.footprints)
        (b, (List.foldl (processSheet (fpFindLast b.footprints)) (b, [])
          L1).2) fsA).1 :=
    hBrun.trans (congrArg
      (fun st => (processSheet (fpFindLast b.footprints) st fsA).1) hM1eta)
  have hkey1 := processSheet_active_idem b
    (List.foldl (processSheet (fpFindLast b.footprints)) (b, []) L1).2 []
    fsA room a aIdx (fpFindLast b.footprints) (fpFindLast b.footprints)
    (fun p => rfl) hpcb hck hleg hanch hlook hlt hstab hnodup
  have hmapB : (enforce_position_run hd b).1.footprints.map Footprint.path =
      b.footprints.map Footprint.path := by
    rw [hBC]
    exact hkey1.2
  have hinert2 : ∀ fs ∈ L1 ++ L2,
      Inert (fpFindLast (enforce_position_run hd b).1.footprints) fs :=
    fun fs hfs => Inert_congr (fpFindLast b.footprints) _ fs
      (fun p => fpFindLast_congr _ _ p hmapB) (hinert fs hfs)
  have hinert2L1 : ∀ fs ∈ L1,
      Inert (fpFindLast (enforce_position_run hd b).1.footprints) fs :=
    fun fs hfs => hinert2 fs (List.mem_append_left L2 hfs)
  have hinert2L2 : ∀ fs ∈ L2,
      Inert (fpFindLast (enforce_position_run hd b).1.footprints) fs :=
    fun fs hfs => hinert2 fs (List.mem_append_right L1 hfs)
  show (enforce_position_run hd (enforce_position_run hd b).1).1 =
    (enforce_position_run hd b).1
  have h0b : enforce_position_run hd (enforce_position_run hd b).1 =
      List.foldl
        (processSheet (fpFindLast (enforce_position_run hd b).1.footprints))
        ((enforce_position_run hd b).1, [])
        (flatten hd.root_sheet none none) := rfl
  rw [h0b, hsplit, List.foldl_append, List.foldl_cons]
  rw [foldl_inert (fpFindLast (enforce_position_run hd b).1.footprints) L2
    hinert2L2 _]
  have hM1b2 : (List.foldl
      (processSheet (fpFindLast (enforce_position_run hd b).1.footprints))
      ((enforce_position_run hd b).1, []) L1).1 =
      (enforce_position_run hd b).1 :=
    foldl_inert _ L1 hinert2L1 _
  have hM1eta2 : List.foldl
      (processSheet (fpFindLast (enforce_position_run hd b).1.footprints))
      ((enforce_position_run hd b).1, []) L1 =
      ((enforce_position_run hd b).1, (List.foldl
        (processSheet (fpFindLast (enforce_position_run hd b).1.footprints))
        ((enforce_position_run hd b).1, []) L1).2) := Prod.ext hM1b2 rfl
  rw [hM1eta2, hBC]
  refine (processSheet_active_idem b
    (List.foldl (processSheet (fpFindLast b.footprints)) (b, []) L1).2 _
    fsA room a aIdx (fpFindLast b.footprints) _ ?_ hpcb hck hleg hanch hlook
    hlt hstab hnodup).1
  intro p
  exact fpFindLast_congr _ _ p hkey1.2

/-- A one-footprint template whose only footprint is the anchor. -/
noncomputable def fpWanchor : Footprint :=
  mkFp "/f" "W1" ⟨0, 0⟩ ⟨0, 0⟩ ⟨0, 0⟩ none

noncomputable def roomW : PCBRoom :=
  ⟨"w.kicad_pcb", ⟨[fpWanchor], [], [], []⟩, some fpWanchor⟩

/-- A target board with exactly the anchor instance of sheet `/s1`. -/
noncomputable def bW : Board :=
  ⟨[mkFp "/s1/f" "Q" ⟨0, 0⟩ ⟨0, 0⟩ ⟨0, 0⟩ none], 0, 0, 0, [], []⟩

/-- A hierarchy with a single checked sub-sheet carrying `roomW`. -/
noncomputable def hdW : HierarchicalData :=
  ⟨.mk ""
    [("s1", .mk "s1" [] (some "w.kicad_sch") (some "s1") (some roomW) true)]
    none none none false⟩

theorem flatten_hdW :
    flatten hdW.root_sheet none none =
      [⟨"", "", "", none, false⟩,
       ⟨"/s1", "s1", "/s1", some roomW, true⟩] := by
  rw [flatten_eq]
  simp only [hdW, SchSheet.sheetid, SchSheet.name, SchSheet.pcb,
    SchSheet.checked, SchSheet.children, sortedChildren,
    List.mergeSort_singleton, List.map_cons, List.map_nil]
  rw [flatten_eq]
  simp [SchSheet.sheetid, SchSheet.name, SchSheet.pcb, SchSheet.checked,
    SchSheet.children, sortedChildren, List.mergeSort_nil,
    identOf, humanNameOf, humanPathOf]
  decide

theorem enforce_position_idempotent_witness :
    (enforce_position hdW (enforce_position hdW bW).1).1 =
      (enforce_position hdW bW).1 :=
  enforce_position_idempotent hdW bW [⟨"", "", "", none, false⟩] []
    ⟨"/s1", "s1", "/s1", some roomW, true⟩ roomW fpWanchor 0
    flatten_hdW
    (fun fs hfs => by
      simp only [List.append_nil, List.mem_singleton] at hfs
      rw [hfs]
      exact Or.inl rfl)
    rfl rfl (by decide) rfl (by decide)
    (fun tf htf h2 => by
      rw [show roomW.subboard.footprints = [fpWanchor] from rfl,
        List.mem_singleton] at htf
      rw [htf]
      exact ⟨rfl, rfl⟩)
    (by decide)
end HierPcb
